import Mathlib

/-!
Verification of the cgroups host-metrics collector
(`src/sources/host_metrics/cgroups.rs`).

The Rust code is shallowly embedded: the kernel pseudo-filesystem is a
finite, explicit structure (`FS`), paths and hierarchical group names are
strings, and every fallible operation returns `Option`/`Except`.  String
scanning is modelled on `String.data` (lists of characters), matching the
byte-level behavior of the Rust `str` operations on the ASCII field names
involved.
-/

/-! ## String scanning primitives -/

/-- Splits a character list at every occurrence of `c` (the pieces do not
contain `c`); models the splitting underlying Rust `str::lines`. -/
def splitOnChar (c : Char) : List Char → List (List Char)
  | [] => [[]]
  | x :: xs =>
    match splitOnChar c xs with
    | [] => [[]]
    | g :: gs => if x = c then [] :: g :: gs else (x :: g) :: gs

/-- Removes one trailing carriage return, as Rust `str::lines` does per line. -/
def stripCR (l : List Char) : List Char :=
  if l.getLast? = some '\r' then l.dropLast else l

/-- Models Rust `str::lines`: split on newline, drop one final empty piece
(so a trailing newline adds no line), and strip a trailing `\r` per line. -/
def rustLines (s : String) : List String :=
  let pieces := splitOnChar '\n' s.data
  let pieces := if pieces.getLast? = some [] then pieces.dropLast else pieces
  pieces.map (fun l => String.mk (stripCR l))

/-- Numeric value of a digit list (most significant first). -/
def digitsToNat (l : List Char) : Nat :=
  l.foldl (fun a c => a * 10 + (c.toNat - 48)) 0

/-- Models Rust `str::parse::<u64>`: an optional leading `+`, then one or
more ASCII digits, rejecting the empty string and values past `u64::MAX`. -/
def parseU64 (s : String) : Option Nat :=
  let l := match s.data with
    | '+' :: rest => rest
    | l => l
  if l.isEmpty then none
  else if l.all Char.isDigit then
    if digitsToNat l < 2 ^ 64 then some (digitsToNat l) else none
  else none

/-- Models Rust `str::starts_with` (character-level prefix test). -/
def strStartsWith (s p : String) : Bool := p.data.isPrefixOf s.data

/-- Models the Rust slice `line[k..]` at a character offset `k` (all offsets
used by the parser fall inside the all-ASCII recognized prefixes). -/
def strDrop (s : String) (n : Nat) : String := String.mk (s.data.drop n)

/-- Models Rust `str::trim` for the whitespace the kernel files contain. -/
def strTrim (s : String) : String :=
  String.mk (((s.data.dropWhile Char.isWhitespace).reverse.dropWhile Char.isWhitespace).reverse)

/-! ## The stat records (expansion of `define_stat_struct!`) -/

/-- Record parsed from `cpu.stat` (fields of `define_stat_struct! CpuStat`). -/
structure CpuStat where
  usage_usec : Nat
  user_usec : Nat
  system_usec : Nat
deriving DecidableEq, Repr

/-- Record parsed from `memory.stat` (fields of `define_stat_struct! MemoryStat`). -/
structure MemoryStat where
  anon : Nat
  file : Nat
deriving DecidableEq, Repr

/-- One iteration of the generated `FromStr` loop for `CpuStat`: test the
line against each recognized `<field> ` prefix in declaration order; on a
match parse the remainder (failure aborts the whole parse), otherwise leave
the record unchanged. -/
def cpuStatLine (r : CpuStat) (line : String) : Option CpuStat :=
  if strStartsWith line "usage_usec " then
    (parseU64 (strDrop line 11)).map (fun v => { r with usage_usec := v })
  else if strStartsWith line "user_usec " then
    (parseU64 (strDrop line 10)).map (fun v => { r with user_usec := v })
  else if strStartsWith line "system_usec " then
    (parseU64 (strDrop line 12)).map (fun v => { r with system_usec := v })
  else some r

/-- Generated `FromStr for CpuStat`: start from `Self::default()` (all zero)
and fold the line scanner over the lines of the text. -/
def CpuStat.from_str (text : String) : Option CpuStat :=
  (rustLines text).foldlM cpuStatLine ⟨0, 0, 0⟩

/-- One iteration of the generated `FromStr` loop for `MemoryStat`. -/
def memoryStatLine (r : MemoryStat) (line : String) : Option MemoryStat :=
  if strStartsWith line "anon " then
    (parseU64 (strDrop line 5)).map (fun v => { r with anon := v })
  else if strStartsWith line "file " then
    (parseU64 (strDrop line 5)).map (fun v => { r with file := v })
  else some r

/-- Generated `FromStr for MemoryStat`. -/
def MemoryStat.from_str (text : String) : Option MemoryStat :=
  (rustLines text).foldlM memoryStatLine ⟨0, 0⟩

/-! ## Observation helpers for stating parser properties -/

/-- The remainders (text after the prefix) of the lines of `text` that start
with the recognized prefix `pfx`, in order. -/
def fieldRems (pfx : String) (text : String) : List String :=
  (rustLines text).filterMap
    (fun l => if strStartsWith l pfx then some (strDrop l pfx.data.length) else none)

/-- Folds a list of remainders through `parse`, starting from default `d`:
yields the value of the last remainder (or `d` if there is none), failing if
any remainder fails to parse.  This is the per-field effect of the scanner. -/
def seqLast (d : Nat) : List String → Option Nat
  | [] => some d
  | r :: rest => (parseU64 r).bind fun v => seqLast v rest

/-! ## Parser characterization lemmas -/

theorem strStartsWith_excl (l p q : String) (hp : strStartsWith l p = true)
    (hpq : (p.data.isPrefixOf q.data || q.data.isPrefixOf p.data) = false) :
    strStartsWith l q = false := by
  by_contra h
  have hq : strStartsWith l q = true := by
    cases hh : strStartsWith l q with
    | false => exact absurd hh h
    | true => rfl
  simp only [strStartsWith, List.isPrefixOf_iff_prefix] at hp hq
  rcases List.prefix_or_prefix_of_prefix hp hq with h1 | h1 <;>
    simp only [Bool.or_eq_false_iff, ← List.isPrefixOf_iff_prefix] at hpq h1 <;>
    simp [h1] at hpq

theorem cpu_fold_spec (lines : List String) (r : CpuStat) :
    lines.foldlM cpuStatLine r =
      match
        seqLast r.usage_usec (lines.filterMap
          (fun l => if strStartsWith l "usage_usec " then some (strDrop l 11) else none)),
        seqLast r.user_usec (lines.filterMap
          (fun l => if strStartsWith l "user_usec " then some (strDrop l 10) else none)),
        seqLast r.system_usec (lines.filterMap
          (fun l => if strStartsWith l "system_usec " then some (strDrop l 12) else none)) with
      | some u, some v, some w => some ⟨u, v, w⟩
      | _, _, _ => none := by
  induction lines generalizing r with
  | nil => rfl
  | cons l rest ih =>
    by_cases h1 : strStartsWith l "usage_usec " = true
    · have h2 : strStartsWith l "user_usec " = false :=
        strStartsWith_excl l "usage_usec " "user_usec " h1 (by decide)
      have h3 : strStartsWith l "system_usec " = false :=
        strStartsWith_excl l "usage_usec " "system_usec " h1 (by decide)
      simp only [List.foldlM_cons, List.filterMap_cons, h1, h2, h3, if_pos, if_neg,
        Bool.false_eq_true, cpuStatLine, reduceIte, seqLast]
      cases hv : parseU64 (strDrop l 11) with
      | none => rfl
      | some v => simpa using ih { r with usage_usec := v }
    · have h1f : strStartsWith l "usage_usec " = false := by
        cases hh : strStartsWith l "usage_usec " with
        | false => rfl
        | true => exact absurd hh h1
      by_cases h2 : strStartsWith l "user_usec " = true
      · have h3 : strStartsWith l "system_usec " = false :=
          strStartsWith_excl l "user_usec " "system_usec " h2 (by decide)
        simp only [List.foldlM_cons, List.filterMap_cons, h1f, h2, h3,
          Bool.false_eq_true, cpuStatLine, reduceIte, seqLast]
        cases hv : parseU64 (strDrop l 10) with
        | none =>
          cases seqLast r.usage_usec (rest.filterMap
              (fun l => if strStartsWith l "usage_usec " then some (strDrop l 11) else none)) <;>
            rfl
        | some v => simpa using ih { r with user_usec := v }
      · have h2f : strStartsWith l "user_usec " = false := by
          cases hh : strStartsWith l "user_usec " with
          | false => rfl
          | true => exact absurd hh h2
        by_cases h3 : strStartsWith l "system_usec " = true
        · simp only [List.foldlM_cons, List.filterMap_cons, h1f, h2f, h3,
            Bool.false_eq_true, cpuStatLine, reduceIte, seqLast]
          cases hv : parseU64 (strDrop l 12) with
          | none =>
            cases seqLast r.usage_usec (rest.filterMap
                (fun l => if strStartsWith l "usage_usec " then some (strDrop l 11) else none)) <;>
              cases seqLast r.user_usec (rest.filterMap
                (fun l => if strStartsWith l "user_usec " then some (strDrop l 10) else none)) <;>
              rfl
          | some v => simpa using ih { r with system_usec := v }
        · have h3f : strStartsWith l "system_usec " = false := by
            cases hh : strStartsWith l "system_usec " with
            | false => rfl
            | true => exact absurd hh h3
          simp only [List.foldlM_cons, List.filterMap_cons, h1f, h2f, h3f,
            Bool.false_eq_true, cpuStatLine, reduceIte]
          exact ih r

theorem mem_fold_spec (lines : List String) (r : MemoryStat) :
    lines.foldlM memoryStatLine r =
      match
        seqLast r.anon (lines.filterMap
          (fun l => if strStartsWith l "anon " then some (strDrop l 5) else none)),
        seqLast r.file (lines.filterMap
          (fun l => if strStartsWith l "file " then some (strDrop l 5) else none)) with
      | some a, some f => some ⟨a, f⟩
      | _, _ => none := by
  induction lines generalizing r with
  | nil => rfl
  | cons l rest ih =>
    by_cases h1 : strStartsWith l "anon " = true
    · have h2 : strStartsWith l "file " = false :=
        strStartsWith_excl l "anon " "file " h1 (by decide)
      simp only [List.foldlM_cons, List.filterMap_cons, h1, h2,
        Bool.false_eq_true, memoryStatLine, reduceIte, seqLast]
      cases hv : parseU64 (strDrop l 5) with
      | none => rfl
      | some v => simpa using ih { r with anon := v }
    · have h1f : strStartsWith l "anon " = false := by
        cases hh : strStartsWith l "anon " with
        | false => rfl
        | true => exact absurd hh h1
      by_cases h2 : strStartsWith l "file " = true
      · simp only [List.foldlM_cons, List.filterMap_cons, h1f, h2,
          Bool.false_eq_true, memoryStatLine, reduceIte, seqLast]
        cases hv : parseU64 (strDrop l 5) with
        | none =>
          cases seqLast r.anon (rest.filterMap
              (fun l => if strStartsWith l "anon " then some (strDrop l 5) else none)) <;>
            rfl
        | some v => simpa using ih { r with file := v }
      · have h2f : strStartsWith l "file " = false := by
          cases hh : strStartsWith l "file " with
          | false => rfl
          | true => exact absurd hh h2
        simp only [List.foldlM_cons, List.filterMap_cons, h1f, h2f,
          Bool.false_eq_true, memoryStatLine, reduceIte]
        exact ih r

/-! ## The filesystem environment

The collector runs against the kernel pseudo-filesystem through four
independent primitives (`std::fs::metadata` twice, `File::open` +
`read_to_string`, `fs::read_dir`).  Each primitive is modelled by its own
finite table so that an entry may, e.g., satisfy the directory-metadata
probe yet fail to produce a listing, exactly as the OS calls may.  A
directory listing is a list of entry outcomes: `some name` is a readable
entry, `none` is an entry the `ReadDir` iterator fails to read
(`io::Result<DirEntry>` being `Err`). -/

/-- Error kinds the embedded operations distinguish: a filesystem failure
(open/read/list) or `io::ErrorKind::InvalidData` from `map_parse_error`. -/
inductive IoError where
  | fsError
  | invalidData
deriving DecidableEq, Repr

structure FS where
  /-- Result of `heim::os::linux::sysfs_root()` (normally `/sys`). -/
  sysfs_root : String
  /-- Paths whose `fs::metadata` succeeds and reports a directory. -/
  dir_paths : List String
  /-- Paths whose `fs::metadata` succeeds and reports a regular file. -/
  file_paths : List String
  /-- Paths whose contents can be opened and read to a string. -/
  file_contents : List (String × String)
  /-- Paths whose `fs::read_dir` succeeds, with their entry outcomes. -/
  dir_listings : List (String × List (Option String))
deriving Repr

/-- Models the source `is_dir` helper: `fs::metadata(path).map(is_dir).unwrap_or(false)`. -/
def FS.is_dir (fs : FS) (p : String) : Bool := fs.dir_paths.contains p

/-- Models the source `is_file` helper: `fs::metadata(path).map(is_file).unwrap_or(false)`. -/
def FS.is_file (fs : FS) (p : String) : Bool := fs.file_paths.contains p

/-- Models `File::open(path)?.read_to_string(buffer)?`: the whole contents,
or `none` when opening/reading fails.  The scratch buffer of the source is
an allocation optimization (cleared before every read) with no semantic
content, so the pure model returns the contents directly. -/
def FS.read_file (fs : FS) (p : String) : Option String :=
  (fs.file_contents.find? (fun pc => pc.1 == p)).map Prod.snd

/-- Models `fs::read_dir(path)`: `none` when the directory cannot be
listed, otherwise the iterator's entry outcomes in listing order. -/
def FS.read_dir (fs : FS) (p : String) : Option (List (Option String)) :=
  (fs.dir_listings.find? (fun pl => pl.1 == p)).map Prod.snd

/-! ## Path and name joining -/

/-- Source `join_path`: the literal `/` is the base cgroup name and leaves
the base path unchanged; otherwise the two are joined as paths (Rust
`PathBuf` collection replaces the base when the pushed component is
absolute). -/
def join_path (base_path filename : String) : String :=
  if filename = "/" then base_path
  else if strStartsWith filename "/" then filename
  else base_path ++ "/" ++ filename

/-- Source `join_name`: cgroup names are relative paths except the base,
which is the literal `/` and contributes no prefix. -/
def join_name (base_name filename : String) : String :=
  if base_name = "/" then filename
  else if strStartsWith filename "/" then filename
  else base_name ++ "/" ++ filename

/-- Models Rust `DirEntry::path()`: the listed directory's path joined with
the entry's file name (file names are single components, never absolute,
but the general `Path::join` semantics is kept). -/
def entry_path (dir entryName : String) : String :=
  if strStartsWith entryName "/" then entryName else dir ++ "/" ++ entryName

/-! ## CGroup nodes -/

structure CGroup where
  /-- Absolute filesystem path of this node's directory. -/
  root : String
  /-- Hierarchical cgroup name; the literal `/` denotes the hierarchy root. -/
  name : String
deriving DecidableEq, Repr

/-- Source `CGroup::root` (named `find_root` here because the structure
field `root` occupies that name in Lean): probe `BASE/unified` as a
directory (hybrid layout), else `BASE/cgroup.procs` as a file (pure v2
layout), else no v2 hierarchy; then resolve an optional base-group
restriction beneath the discovered root, dropping the hierarchy when that
subtree is not an existing directory. -/
def CGroup.find_root (fs : FS) (base_group : Option String) : Option CGroup :=
  let base_dir := join_path fs.sysfs_root "fs/cgroup"
  let hybrid_root := join_path base_dir "unified"
  let found := if fs.is_dir hybrid_root then some hybrid_root
    else if fs.is_file (join_path base_dir "cgroup.procs") then some base_dir
    else none
  found.bind fun root =>
    match base_group with
    | some group =>
      let root := join_path root group
      if fs.is_dir root then some { root := root, name := group } else none
    | none => some { root := root, name := "/" }

/-- Source `CGroup::is_root`: the hierarchical name is the literal `/`. -/
def CGroup.is_root (cg : CGroup) : Bool := cg.name == "/"

/-- Source `CGroup::make_path`. -/
def CGroup.make_path (cg : CGroup) (filename : String) : String :=
  join_path cg.root filename

/-- Source `CGroup::load_cpu`: read `cpu.stat` and parse it as a `CpuStat`
(a parse failure becomes `InvalidData` via `map_parse_error`). -/
def CGroup.load_cpu (cg : CGroup) (fs : FS) : Except IoError CpuStat :=
  match fs.read_file (cg.make_path "cpu.stat") with
  | none => .error .fsError
  | some text =>
    match CpuStat.from_str text with
    | none => .error .invalidData
    | some stat => .ok stat

/-- Source `CGroup::load_memory_current`: read `memory.current`, trim it,
and parse the single unsigned integer. -/
def CGroup.load_memory_current (cg : CGroup) (fs : FS) : Except IoError Nat :=
  match fs.read_file (cg.make_path "memory.current") with
  | none => .error .fsError
  | some text =>
    match parseU64 (strTrim text) with
    | none => .error .invalidData
    | some v => .ok v

/-- Source `CGroup::load_memory_stat`: read `memory.stat` and parse it as a
`MemoryStat`. -/
def CGroup.load_memory_stat (cg : CGroup) (fs : FS) : Except IoError MemoryStat :=
  match fs.read_file (cg.make_path "memory.stat") with
  | none => .error .fsError
  | some text =>
    match MemoryStat.from_str text with
    | none => .error .invalidData
    | some stat => .ok stat

/-- Models `Iterator<Item = io::Result<T>>::collect::<io::Result<Vec<T>>>`:
the first `Err` item fails the whole collection. -/
def collectResults : List (Option CGroup) → Except IoError (List CGroup)
  | [] => .ok []
  | none :: _ => .error .fsError
  | some cg :: rest => (collectResults rest).map (cg :: ·)

/-- Source `CGroup::children`: list the directory; pair each readable entry
with its path and joined hierarchical name; keep every entry except those
positively known not to be directories (an `Err` entry survives the filter);
collect, so a surviving `Err` entry fails the whole call. -/
def CGroup.children (cg : CGroup) (fs : FS) : Except IoError (List CGroup) :=
  match fs.read_dir cg.root with
  | none => .error .fsError
  | some entries =>
    let mapped := entries.map
      (fun e => e.map (fun n => (entry_path cg.root n, join_name cg.name n)))
    let kept := mapped.filter
      (fun r => match r with
        | some pn => fs.is_dir pn.1
        | none => true)
    collectResults (kept.map (fun r => r.map (fun pn => CGroup.mk pn.1 pn.2)))

/-! ## Metric samples and configuration -/

inductive MetricKind where
  | counter
  | gauge
deriving DecidableEq, Repr

/-- Value of a sample.  The source stores an `f64`: CPU counters are
`<usec> as f64 * 1e-6` (microseconds to seconds) and memory gauges are
`<n> as f64`; the exact integer and the applied conversion are carried
symbolically instead of committing to float rounding. -/
inductive MetricValue where
  | usecAsSecs (usec : Nat)
  | bytes (n : Nat)
deriving DecidableEq, Repr

structure Metric where
  name : String
  timestamp : Nat
  kind : MetricKind
  value : MetricValue
  tags : List (String × String)
deriving DecidableEq, Repr

/-- Tag set of every sample of a node: the `btreemap!` literal, in its key
order (`cgroup` < `collector`). -/
def mkTags (name : String) : List (String × String) :=
  [("cgroup", name), ("collector", "cgroups")]

/-- Modelled from the spec: `FilterList` (§3, glossary) is an allow/deny
pattern set restricting which child names are traversed; its definition
lives in the host_metrics module root, which is not among the sources, so
it is modelled abstractly by the predicate it induces on hierarchical
names. -/
def FilterList : Type := String → Bool

/-- Modelled from the spec: `FilterList::contains_path` applied to
`Some(name)`, deciding whether a child of that hierarchical name is
traversed. -/
def FilterList.contains_path (fl : FilterList) (name : String) : Bool := fl name

structure CgroupsConfig where
  levels : Nat
  base : Option String
  groups : FilterList

structure HostMetricsConfig where
  cgroups : CgroupsConfig

/-- Modelled from the spec: `filter_result_sync` (host_metrics module root,
not among the sources) logs the message on failure and yields nothing,
passing successes through (§4.5, §7). -/
def filter_result_sync (r : Except IoError α) (_message : String) : Option α :=
  r.toOption

/-- Modelled from the spec: `HostMetricsConfig::counter` (host_metrics
module root, not among the sources) builds a counter sample from name,
timestamp, value and tags (§3, §6). -/
def HostMetricsConfig.counter (_cfg : HostMetricsConfig) (name : String) (now : Nat)
    (value : MetricValue) (tags : List (String × String)) : Metric :=
  { name := name, timestamp := now, kind := .counter, value := value, tags := tags }

/-- Modelled from the spec: `HostMetricsConfig::gauge` builds a gauge
sample from name, timestamp, value and tags (§3, §6). -/
def HostMetricsConfig.gauge (_cfg : HostMetricsConfig) (name : String) (now : Nat)
    (value : MetricValue) (tags : List (String × String)) : Metric :=
  { name := name, timestamp := now, kind := .gauge, value := value, tags := tags }

/-! ## The traversal engine -/

/-- Source `HostMetricsConfig::recurse_cgroup`.  The imperative pushes onto
the shared output vector become list appends in source order: the three CPU
counters on a successful `load_cpu`; for non-root nodes the
`memory.current` gauge and the two `memory.stat` gauges, each on its own
successful read; then, while `level < levels`, the recursion into every
child admitted by the `groups` filter.  The source binds the tag map once
per node and clones it per sample; the pure model writes `mkTags
cgroup.name` at each sample. -/
def HostMetricsConfig.recurse_cgroup (cfg : HostMetricsConfig) (fs : FS) (now : Nat)
    (cgroup : CGroup) (level : Nat) : List Metric :=
  (match filter_result_sync (cgroup.load_cpu fs)
      "Failed to load/parse cgroups CPU statistics" with
    | some cpu =>
      [cfg.counter "cgroup_cpu_usage_seconds_total" now (.usecAsSecs cpu.usage_usec)
        (mkTags cgroup.name),
       cfg.counter "cgroup_cpu_user_seconds_total" now (.usecAsSecs cpu.user_usec)
        (mkTags cgroup.name),
       cfg.counter "cgroup_cpu_system_seconds_total" now (.usecAsSecs cpu.system_usec)
        (mkTags cgroup.name)]
    | none => []) ++
  (if cgroup.is_root then [] else
    (match filter_result_sync (cgroup.load_memory_current fs)
        "Failed to load/parse cgroups current memory" with
      | some current =>
        [cfg.gauge "cgroup_memory_current_bytes" now (.bytes current) (mkTags cgroup.name)]
      | none => []) ++
    (match filter_result_sync (cgroup.load_memory_stat fs)
        "Failed to load/parse cgroups memory statistics" with
      | some stat =>
        [cfg.gauge "cgroup_memory_anon_bytes" now (.bytes stat.anon) (mkTags cgroup.name),
         cfg.gauge "cgroup_memory_file_bytes" now (.bytes stat.file) (mkTags cgroup.name)]
      | none => [])) ++
  (if _h : level < cfg.cgroups.levels then
    match filter_result_sync (cgroup.children fs) "Failed to load cgroups children" with
    | some children =>
      children.flatMap (fun child =>
        if cfg.cgroups.groups.contains_path child.name then
          cfg.recurse_cgroup fs now child (level + 1)
        else [])
    | none => []
  else [])
termination_by cfg.cgroups.levels - level
decreasing_by simp_wf; omega

/-- Source `HostMetricsConfig::cgroups_metrics`: capture one instant, find
the hierarchy root, and traverse from it at depth 1; an undetected
hierarchy yields the empty sample list. -/
def HostMetricsConfig.cgroups_metrics (cfg : HostMetricsConfig) (fs : FS) (now : Nat) :
    List Metric :=
  match CGroup.find_root fs cfg.cgroups.base with
  | some root => cfg.recurse_cgroup fs now root 1
  | none => []

/-! ## Derived parser facts -/

theorem fieldRems_usage (text : String) :
    fieldRems "usage_usec " text = (rustLines text).filterMap
      (fun l => if strStartsWith l "usage_usec " then some (strDrop l 11) else none) := rfl

theorem fieldRems_user (text : String) :
    fieldRems "user_usec " text = (rustLines text).filterMap
      (fun l => if strStartsWith l "user_usec " then some (strDrop l 10) else none) := rfl

theorem fieldRems_system (text : String) :
    fieldRems "system_usec " text = (rustLines text).filterMap
      (fun l => if strStartsWith l "system_usec " then some (strDrop l 12) else none) := rfl

theorem fieldRems_anon (text : String) :
    fieldRems "anon " text = (rustLines text).filterMap
      (fun l => if strStartsWith l "anon " then some (strDrop l 5) else none) := rfl

theorem fieldRems_file (text : String) :
    fieldRems "file " text = (rustLines text).filterMap
      (fun l => if strStartsWith l "file " then some (strDrop l 5) else none) := rfl

/-- The members-first characterization of the generated CPU parser: only the
remainders of recognized lines matter, folded per field from default 0. -/
theorem cpu_from_str_spec (text : String) :
    CpuStat.from_str text =
      match seqLast 0 (fieldRems "usage_usec " text), seqLast 0 (fieldRems "user_usec " text),
          seqLast 0 (fieldRems "system_usec " text) with
      | some u, some v, some w => some ⟨u, v, w⟩
      | _, _, _ => none := by
  rw [fieldRems_usage, fieldRems_user, fieldRems_system]
  exact cpu_fold_spec (rustLines text) ⟨0, 0, 0⟩

/-- The same characterization for the generated memory parser. -/
theorem mem_from_str_spec (text : String) :
    MemoryStat.from_str text =
      match seqLast 0 (fieldRems "anon " text), seqLast 0 (fieldRems "file " text) with
      | some a, some f => some ⟨a, f⟩
      | _, _ => none := by
  rw [fieldRems_anon, fieldRems_file]
  exact mem_fold_spec (rustLines text) ⟨0, 0⟩

theorem cpu_from_str_fields (text : String) (r : CpuStat)
    (h : CpuStat.from_str text = some r) :
    seqLast 0 (fieldRems "usage_usec " text) = some r.usage_usec ∧
    seqLast 0 (fieldRems "user_usec " text) = some r.user_usec ∧
    seqLast 0 (fieldRems "system_usec " text) = some r.system_usec := by
  rw [cpu_from_str_spec] at h
  cases hu : seqLast 0 (fieldRems "usage_usec " text) <;>
    cases hv : seqLast 0 (fieldRems "user_usec " text) <;>
    cases hw : seqLast 0 (fieldRems "system_usec " text) <;>
    simp only [hu, hv, hw] at h <;> simp_all
  obtain ⟨rfl⟩ := h
  exact ⟨rfl, rfl, rfl⟩

theorem mem_from_str_fields (text : String) (r : MemoryStat)
    (h : MemoryStat.from_str text = some r) :
    seqLast 0 (fieldRems "anon " text) = some r.anon ∧
    seqLast 0 (fieldRems "file " text) = some r.file := by
  rw [mem_from_str_spec] at h
  cases ha : seqLast 0 (fieldRems "anon " text) <;>
    cases hf : seqLast 0 (fieldRems "file " text) <;>
    simp only [ha, hf] at h <;> simp_all
  obtain ⟨rfl⟩ := h
  exact ⟨rfl, rfl⟩

theorem seqLast_none_of_mem (l : List String) (rem : String) (hmem : rem ∈ l)
    (hbad : parseU64 rem = none) : ∀ d, seqLast d l = none := by
  induction l with
  | nil => cases hmem
  | cons r rest ih =>
    intro d
    rcases List.mem_cons.mp hmem with rfl | hmem2
    · simp [seqLast, hbad]
    · cases hp : parseU64 r with
      | none => simp [seqLast, hp]
      | some v => simp [seqLast, hp, ih hmem2]

theorem seqLast_getLast (l : List String) (d x : Nat) (h : seqLast d l = some x)
    (rem : String) (hrem : l.getLast? = some rem) : parseU64 rem = some x := by
  induction l generalizing d with
  | nil => cases hrem
  | cons r rest ih =>
    cases hp : parseU64 r with
    | none => simp [seqLast, hp] at h
    | some v =>
      simp only [seqLast, hp, Option.some_bind] at h
      cases rest with
      | nil =>
        simp only [List.getLast?_singleton, Option.some.injEq] at hrem
        subst hrem
        simp only [seqLast] at h
        rw [hp, h]
      | cons s t =>
        rw [List.getLast?_cons_cons] at hrem
        exact ih v h hrem

/-! ## Claims about the stat-record parser -/

/-- C5. The stat-record parser satisfies, for every input text: a line
starting with a recognized field name followed by a single space has its
remainder parsed as an unsigned 64-bit integer and stored in that field
(the per-field fold over the matched remainders, starting from 0, gives the
stored value); lines matching no recognized field are ignored and fields
never matched remain zero (the characterization depends only on the matched
remainders); a matched line with an unparsable remainder fails the whole
parse; and the two concrete examples of the claim hold. -/
theorem C5_stat_record_parse (text : String) :
    (CpuStat.from_str text =
      match seqLast 0 (fieldRems "usage_usec " text), seqLast 0 (fieldRems "user_usec " text),
          seqLast 0 (fieldRems "system_usec " text) with
      | some u, some v, some w => some ⟨u, v, w⟩
      | _, _, _ => none) ∧
    (MemoryStat.from_str text =
      match seqLast 0 (fieldRems "anon " text), seqLast 0 (fieldRems "file " text) with
      | some a, some f => some ⟨a, f⟩
      | _, _ => none) ∧
    (∀ l ∈ rustLines text, strStartsWith l "usage_usec " = true →
      parseU64 (strDrop l 11) = none → CpuStat.from_str text = none) ∧
    (∀ r, CpuStat.from_str text = some r →
      (fieldRems "usage_usec " text = [] → r.usage_usec = 0) ∧
      (fieldRems "user_usec " text = [] → r.user_usec = 0) ∧
      (fieldRems "system_usec " text = [] → r.system_usec = 0)) ∧
    CpuStat.from_str "usage_usec 100\nuser_usec 40\nsystem_usec 60" = some ⟨100, 40, 60⟩ ∧
    CpuStat.from_str "usage_usec notanumber" = none := by
  refine ⟨cpu_from_str_spec text, mem_from_str_spec text, ?_, ?_, by decide, by decide⟩
  · intro l hl hpfx hbad
    have hmem : strDrop l 11 ∈ fieldRems "usage_usec " text := by
      rw [fieldRems_usage]
      exact List.mem_filterMap.mpr ⟨l, hl, by rw [hpfx]; rfl⟩
    have hnone := seqLast_none_of_mem _ _ hmem hbad 0
    rw [cpu_from_str_spec, hnone]
  · intro r hr
    obtain ⟨hu, hv, hw⟩ := cpu_from_str_fields text r hr
    refine ⟨?_, ?_, ?_⟩ <;> intro hnil
    · rw [hnil] at hu
      simp only [seqLast, Option.some.injEq] at hu
      exact hu.symm
    · rw [hnil] at hv
      simp only [seqLast, Option.some.injEq] at hv
      exact hv.symm
    · rw [hnil] at hw
      simp only [seqLast, Option.some.injEq] at hw
      exact hw.symm

/-- Witness for C5 at concrete inputs: the malformed-line conjunct at the
text `usage_usec notanumber` with its single line, and the zero-default
conjunct at a text matching only `usage_usec`. -/
theorem C5_stat_record_parse_witness :
    CpuStat.from_str "usage_usec notanumber" = none ∧
    (CpuStat.mk 7 0 0).user_usec = 0 := by
  constructor
  · exact (C5_stat_record_parse "usage_usec notanumber").2.2.1 "usage_usec notanumber"
      (by decide) (by decide) (by decide)
  · exact ((C5_stat_record_parse "usage_usec 7\nsomething else").2.2.2.1
      ⟨7, 0, 0⟩ (by decide)).2.1 (by decide)

/-- C9 (implicit). When a recognized field name matches more than one line
and every matched line parses, the parser stores the value of the last such
line: for any successful parse, the last matched remainder of each field
parses exactly to the stored field value. -/
theorem C9_last_occurrence_wins :
    (∀ text r rem, CpuStat.from_str text = some r →
      ((fieldRems "usage_usec " text).getLast? = some rem →
        parseU64 rem = some r.usage_usec) ∧
      ((fieldRems "user_usec " text).getLast? = some rem →
        parseU64 rem = some r.user_usec) ∧
      ((fieldRems "system_usec " text).getLast? = some rem →
        parseU64 rem = some r.system_usec)) ∧
    (∀ text r rem, MemoryStat.from_str text = some r →
      ((fieldRems "anon " text).getLast? = some rem → parseU64 rem = some r.anon) ∧
      ((fieldRems "file " text).getLast? = some rem → parseU64 rem = some r.file)) := by
  constructor
  · intro text r rem hr
    obtain ⟨hu, hv, hw⟩ := cpu_from_str_fields text r hr
    exact ⟨fun hl => seqLast_getLast _ _ _ hu rem hl,
           fun hl => seqLast_getLast _ _ _ hv rem hl,
           fun hl => seqLast_getLast _ _ _ hw rem hl⟩
  · intro text r rem hr
    obtain ⟨ha, hf⟩ := mem_from_str_fields text r hr
    exact ⟨fun hl => seqLast_getLast _ _ _ ha rem hl,
           fun hl => seqLast_getLast _ _ _ hf rem hl⟩

/-- Witness for C9: on `usage_usec 1\nusage_usec 2` the parse succeeds with
usage 2, and the theorem applied there identifies the last remainder. -/
theorem C9_last_occurrence_wins_witness : parseU64 "2" = some 2 := by
  have h := (C9_last_occurrence_wins.1 "usage_usec 1\nusage_usec 2" ⟨2, 0, 0⟩ "2"
    (by decide)).1 (by decide)
  simpa using h

/-- C10 (implicit). On the empty text, and on any text none of whose lines
matches a recognized field, both generated parsers succeed with the
all-zero record. -/
theorem C10_empty_text_parses_to_zero :
    (∀ text, (∀ l ∈ rustLines text,
        strStartsWith l "usage_usec " = false ∧ strStartsWith l "user_usec " = false ∧
        strStartsWith l "system_usec " = false) →
      CpuStat.from_str text = some ⟨0, 0, 0⟩) ∧
    (∀ text, (∀ l ∈ rustLines text,
        strStartsWith l "anon " = false ∧ strStartsWith l "file " = false) →
      MemoryStat.from_str text = some ⟨0, 0⟩) ∧
    CpuStat.from_str "" = some ⟨0, 0, 0⟩ ∧
    MemoryStat.from_str "" = some ⟨0, 0⟩ := by
  refine ⟨?_, ?_, by decide, by decide⟩
  · intro text hnomatch
    have hu : fieldRems "usage_usec " text = [] := by
      rw [fieldRems_usage]
      exact List.filterMap_eq_nil_iff.mpr
        (fun l hl => by rw [(hnomatch l hl).1]; rfl)
    have hv : fieldRems "user_usec " text = [] := by
      rw [fieldRems_user]
      exact List.filterMap_eq_nil_iff.mpr
        (fun l hl => by rw [(hnomatch l hl).2.1]; rfl)
    have hw : fieldRems "system_usec " text = [] := by
      rw [fieldRems_system]
      exact List.filterMap_eq_nil_iff.mpr
        (fun l hl => by rw [(hnomatch l hl).2.2]; rfl)
    rw [cpu_from_str_spec, hu, hv, hw]
    rfl
  · intro text hnomatch
    have ha : fieldRems "anon " text = [] := by
      rw [fieldRems_anon]
      exact List.filterMap_eq_nil_iff.mpr
        (fun l hl => by rw [(hnomatch l hl).1]; rfl)
    have hf : fieldRems "file " text = [] := by
      rw [fieldRems_file]
      exact List.filterMap_eq_nil_iff.mpr
        (fun l hl => by rw [(hnomatch l hl).2]; rfl)
    rw [mem_from_str_spec, ha, hf]
    rfl

/-- Witness for C10 at a text of only unrecognized lines. -/
theorem C10_empty_text_parses_to_zero_witness :
    CpuStat.from_str "foo bar\nnr_periods 3" = some ⟨0, 0, 0⟩ :=
  C10_empty_text_parses_to_zero.1 "foo bar\nnr_periods 3" (by decide)

/-! ## Children pipeline lemmas -/

theorem collectResults_error_of_mem_none (l : List (Option CGroup)) (h : none ∈ l) :
    collectResults l = .error .fsError := by
  induction l with
  | nil => cases h
  | cons e rest ih =>
    cases e with
    | none => rfl
    | some cg =>
      rcases List.mem_cons.mp h with h1 | h2
      · cases h1
      · simp [collectResults, ih h2, Except.map]

theorem children_pipeline (fs : FS) (cg : CGroup) (entries : List (Option String))
    (h : none ∉ entries) :
    collectResults
      (((entries.map (fun e => e.map
          (fun n => (entry_path cg.root n, join_name cg.name n)))).filter
        (fun r => match r with
          | some pn => fs.is_dir pn.1
          | none => true)).map (fun r => r.map (fun pn => CGroup.mk pn.1 pn.2))) =
    .ok (entries.filterMap (fun e => e.bind (fun n =>
      if fs.is_dir (entry_path cg.root n) then
        some (CGroup.mk (entry_path cg.root n) (join_name cg.name n))
      else none))) := by
  induction entries with
  | nil => rfl
  | cons e rest ih =>
    cases e with
    | none => exact absurd (List.mem_cons_self none rest) h
    | some n =>
      have hrest : none ∉ rest := fun hm => h (List.mem_cons_of_mem _ hm)
      by_cases hd : fs.is_dir (entry_path cg.root n) = true
      · simp [List.filter_cons, hd, collectResults, ih hrest, List.filterMap_cons,
          Except.map]
      · have hdf : fs.is_dir (entry_path cg.root n) = false := by
          cases hh : fs.is_dir (entry_path cg.root n) with
          | false => rfl
          | true => exact absurd hh hd
        simp [List.filter_cons, hdf, collectResults, ih hrest, List.filterMap_cons]

theorem children_error_of_entry_error (fs : FS) (cg : CGroup)
    (entries : List (Option String)) (hread : fs.read_dir cg.root = some entries)
    (h : none ∈ entries) : cg.children fs = .error .fsError := by
  unfold CGroup.children
  rw [hread]
  apply collectResults_error_of_mem_none
  apply List.mem_map.mpr
  refine ⟨none, ?_, rfl⟩
  apply List.mem_filter.mpr
  refine ⟨?_, rfl⟩
  exact List.mem_map.mpr ⟨none, h, rfl⟩

theorem children_ok_of_no_error (fs : FS) (cg : CGroup)
    (entries : List (Option String)) (hread : fs.read_dir cg.root = some entries)
    (h : none ∉ entries) :
    cg.children fs = .ok (entries.filterMap (fun e => e.bind (fun n =>
      if fs.is_dir (entry_path cg.root n) then
        some (CGroup.mk (entry_path cg.root n) (join_name cg.name n))
      else none))) := by
  unfold CGroup.children
  rw [hread]
  exact children_pipeline fs cg entries h

theorem children_ok_inv (fs : FS) (cg : CGroup) (cs : List CGroup)
    (h : cg.children fs = .ok cs) :
    ∃ entries, fs.read_dir cg.root = some entries ∧ none ∉ entries ∧
      cs = entries.filterMap (fun e => e.bind (fun n =>
        if fs.is_dir (entry_path cg.root n) then
          some (CGroup.mk (entry_path cg.root n) (join_name cg.name n))
        else none)) := by
  cases hread : fs.read_dir cg.root with
  | none =>
    unfold CGroup.children at h
    rw [hread] at h
    cases h
  | some entries =>
    by_cases herr : none ∈ entries
    · rw [children_error_of_entry_error fs cg entries hread herr] at h
      cases h
    · refine ⟨entries, rfl, herr, ?_⟩
      rw [children_ok_of_no_error fs cg entries hread herr] at h
      cases h
      rfl

/-- Shape of any member of a successful `children` listing: it comes from
one readable entry that passed the directory check, with path and name
joined from the parent's. -/
theorem children_mem_shape (fs : FS) (cg : CGroup) (cs : List CGroup) (c : CGroup)
    (h : cg.children fs = .ok cs) (hc : c ∈ cs) :
    ∃ entries n, fs.read_dir cg.root = some entries ∧ some n ∈ entries ∧
      fs.is_dir (entry_path cg.root n) = true ∧
      c = CGroup.mk (entry_path cg.root n) (join_name cg.name n) := by
  obtain ⟨entries, hread, _herr, rfl⟩ := children_ok_inv fs cg cs h
  obtain ⟨e, he, heq⟩ := List.mem_filterMap.mp hc
  cases e with
  | none => cases heq
  | some n =>
    simp only [Option.some_bind] at heq
    by_cases hd : fs.is_dir (entry_path cg.root n) = true
    · rw [if_pos hd] at heq
      cases heq
      exact ⟨entries, n, hread, he, hd, rfl⟩
    · rw [if_neg hd] at heq
      cases heq

/-! ## Claims about hierarchy detection and child listing -/

/-- C1. Hierarchy detection follows the three-way probe exactly: if
`BASE/unified` is a directory it is the v2 root; otherwise, if the file
`cgroup.procs` exists directly under `BASE`, `BASE` itself is the v2 root;
otherwise no root is produced; when a supplied base subtree name does not
resolve to an existing directory under the discovered root (whichever probe
found it), no root is produced; and whenever no root is produced the whole
collection pass returns the empty sample sequence (the collector is a total
function into sample lists, so no error can be raised). -/
theorem C1_hierarchy_detection (cfg : HostMetricsConfig) (fs : FS) (now : Nat) :
    (fs.is_dir (join_path (join_path fs.sysfs_root "fs/cgroup") "unified") = true →
      CGroup.find_root fs none =
        some ⟨join_path (join_path fs.sysfs_root "fs/cgroup") "unified", "/"⟩) ∧
    (fs.is_dir (join_path (join_path fs.sysfs_root "fs/cgroup") "unified") = false →
      fs.is_file (join_path (join_path fs.sysfs_root "fs/cgroup") "cgroup.procs") = true →
      CGroup.find_root fs none = some ⟨join_path fs.sysfs_root "fs/cgroup", "/"⟩) ∧
    (fs.is_dir (join_path (join_path fs.sysfs_root "fs/cgroup") "unified") = false →
      fs.is_file (join_path (join_path fs.sysfs_root "fs/cgroup") "cgroup.procs") = false →
      ∀ bg, CGroup.find_root fs bg = none) ∧
    (∀ g,
      fs.is_dir
        (join_path (join_path (join_path fs.sysfs_root "fs/cgroup") "unified") g) = false →
      fs.is_dir (join_path (join_path fs.sysfs_root "fs/cgroup") g) = false →
      CGroup.find_root fs (some g) = none) ∧
    (CGroup.find_root fs cfg.cgroups.base = none →
      cfg.cgroups_metrics fs now = []) := by
  refine ⟨?_, ?_, ?_, ?_, ?_⟩
  · intro hdir
    simp [CGroup.find_root, hdir]
  · intro hdir hfile
    simp [CGroup.find_root, hdir, hfile]
  · intro hdir hfile bg
    simp [CGroup.find_root, hdir, hfile]
  · intro g hg1 hg2
    unfold CGroup.find_root
    by_cases hdir : fs.is_dir (join_path (join_path fs.sysfs_root "fs/cgroup") "unified") = true
    · simp [hdir, hg1]
    · simp only [Bool.not_eq_true] at hdir
      by_cases hfile :
          fs.is_file (join_path (join_path fs.sysfs_root "fs/cgroup") "cgroup.procs") = true
      · simp [hdir, hfile, hg2]
      · simp only [Bool.not_eq_true] at hfile
        simp [hdir, hfile]
  · intro hnone
    unfold HostMetricsConfig.cgroups_metrics
    rw [hnone]

/-- Witness for C1: a pure-v2 filesystem resolves to `BASE` with root name
`/`; a filesystem with neither probe resolves to nothing and the collection
pass at such a filesystem is empty; a base restriction naming a missing
directory also resolves to nothing. -/
theorem C1_hierarchy_detection_witness :
    CGroup.find_root
      { sysfs_root := "/sys", dir_paths := [],
        file_paths := ["/sys/fs/cgroup/cgroup.procs"], file_contents := [],
        dir_listings := [] } none = some ⟨"/sys/fs/cgroup", "/"⟩ ∧
    CGroup.find_root
      { sysfs_root := "/sys", dir_paths := [], file_paths := [], file_contents := [],
        dir_listings := [] } none = none ∧
    HostMetricsConfig.cgroups_metrics ⟨⟨3, none, fun _ => true⟩⟩
      { sysfs_root := "/sys", dir_paths := [], file_paths := [], file_contents := [],
        dir_listings := [] } 0 = [] ∧
    CGroup.find_root
      { sysfs_root := "/sys", dir_paths := [],
        file_paths := ["/sys/fs/cgroup/cgroup.procs"], file_contents := [],
        dir_listings := [] } (some "user.slice") = none := by
  refine ⟨?_, ?_, ?_, ?_⟩
  · exact (C1_hierarchy_detection ⟨⟨3, none, fun _ => true⟩⟩ _ 0).2.1 (by decide) (by decide)
  · exact (C1_hierarchy_detection ⟨⟨3, none, fun _ => true⟩⟩ _ 0).2.2.1 (by decide)
      (by decide) none
  · exact (C1_hierarchy_detection ⟨⟨3, none, fun _ => true⟩⟩ _ 0).2.2.2.2
      ((C1_hierarchy_detection ⟨⟨3, none, fun _ => true⟩⟩ _ 0).2.2.1 (by decide)
        (by decide) none)
  · exact (C1_hierarchy_detection ⟨⟨3, none, fun _ => true⟩⟩ _ 0).2.2.2.1 "user.slice"
      (by decide) (by decide)

/-- C7 as stated is false on the code: `children()` also fails when the
directory listing itself starts successfully but yields one entry that
cannot be read, because the `Err` entry survives the not-a-directory filter
and the `collect::<io::Result<Vec<_>>>` then propagates it.  Here the
listing of `/cg` starts successfully (`read_dir` returns an entry list) yet
`children` fails rather than returning the entry-free listing. -/
theorem C7_counterexample :
    FS.read_dir
      { sysfs_root := "/sys", dir_paths := [], file_paths := [], file_contents := [],
        dir_listings := [("/cg", [none])] } "/cg" = some [none] ∧
    CGroup.children ⟨"/cg", "/"⟩
      { sysfs_root := "/sys", dir_paths := [], file_paths := [], file_contents := [],
        dir_listings := [("/cg", [none])] } = .error .fsError := by
  exact ⟨by decide, rfl⟩

/-- C7, amended: `children()` fails with a filesystem error when the node's
directory cannot be listed, and also when a successfully started listing
yields an individual entry that cannot be read; entries that are read but
whose metadata cannot be confirmed to denote a directory (the `is_dir`
probe treats a metadata failure as `false`) are silently excluded from the
returned child sequence rather than failing the whole listing. -/
theorem C7_children_errors (fs : FS) (cg : CGroup) :
    (fs.read_dir cg.root = none → cg.children fs = .error .fsError) ∧
    (∀ entries, fs.read_dir cg.root = some entries →
      (none ∈ entries → cg.children fs = .error .fsError) ∧
      (none ∉ entries →
        cg.children fs = .ok (entries.filterMap (fun e => e.bind (fun n =>
          if fs.is_dir (entry_path cg.root n) then
            some (CGroup.mk (entry_path cg.root n) (join_name cg.name n))
          else none))))) := by
  refine ⟨?_, ?_⟩
  · intro hread
    unfold CGroup.children
    rw [hread]
  · intro entries hread
    exact ⟨fun herr => children_error_of_entry_error fs cg entries hread herr,
           fun hok => children_ok_of_no_error fs cg entries hread hok⟩

/-- Witness for the amended C7: an unlistable directory fails; a clean
listing with one confirmed directory, one non-directory and one
unconfirmable entry returns exactly the confirmed directory. -/
theorem C7_children_errors_witness :
    CGroup.children ⟨"/cg", "/"⟩
      { sysfs_root := "/sys", dir_paths := [], file_paths := [], file_contents := [],
        dir_listings := [] } = .error .fsError ∧
    CGroup.children ⟨"/cg", "/"⟩
      { sysfs_root := "/sys", dir_paths := ["/cg/a"], file_paths := [],
        file_contents := [], dir_listings := [("/cg", [some "a", some "b"])] } =
      .ok [⟨"/cg/a", "a"⟩] := by
  constructor
  · exact (C7_children_errors
      { sysfs_root := "/sys", dir_paths := [], file_paths := [], file_contents := [],
        dir_listings := [] } ⟨"/cg", "/"⟩).1 (by decide)
  · exact ((C7_children_errors
      { sysfs_root := "/sys", dir_paths := ["/cg/a"], file_paths := [],
        file_contents := [], dir_listings := [("/cg", [some "a", some "b"])] }
      ⟨"/cg", "/"⟩).2 [some "a", some "b"] (by decide)).2 (by decide)

/-! ## Wellformed listings and traversal analysis -/

/-- A wellformed directory-entry name: nonempty and free of the path
separator, as the kernel guarantees for real directory entries. -/
def validSegB (s : String) : Bool := (!(s == "")) && !(s.data.contains '/')

def entryOkB : Option String → Bool
  | none => true
  | some s => validSegB s

/-- A wellformed filesystem: every readable name in every directory listing
is a wellformed entry name. -/
def FS.wf (fs : FS) : Bool :=
  fs.dir_listings.all (fun pl => pl.2.all entryOkB)

/-- The filter admitted every link of a chain of child names grown from
`base` by `join_name`, exactly as `recurse_cgroup` checks `child.name` at
each level of descent. -/
def chainOk (groups : FilterList) : String → List String → Prop
  | _, [] => True
  | base, s :: rest =>
    groups.contains_path (join_name base s) = true ∧ chainOk groups (join_name base s) rest

theorem filter_result_some {α : Type} (r : Except IoError α) (msg : String) (x : α)
    (h : filter_result_sync r msg = some x) : r = .ok x := by
  cases r with
  | error e => cases h
  | ok a =>
    cases h
    rfl

theorem wf_entry (fs : FS) (p : String) (entries : List (Option String)) (n : String)
    (hwf : fs.wf = true) (hread : fs.read_dir p = some entries) (hn : some n ∈ entries) :
    validSegB n = true := by
  unfold FS.read_dir at hread
  cases hf : fs.dir_listings.find? (fun pl => pl.1 == p) with
  | none => rw [hf] at hread; cases hread
  | some pl =>
    rw [hf] at hread
    cases hread
    have hmem : pl ∈ fs.dir_listings := List.mem_of_find?_eq_some hf
    have hall := (List.all_eq_true.mp hwf) pl hmem
    have := (List.all_eq_true.mp hall) (some n) hn
    simpa [entryOkB] using this

/-- Master shape lemma for the traversal: every produced sample carries the
shared capture instant, and its tag set is the tag map of a node reached
from the entry node by a chain of child segments, each admitted by the
`groups` filter, of length bounded by the remaining depth budget, and (on a
wellformed filesystem) each a wellformed entry name. -/
theorem mem_recurse_shape (cfg : HostMetricsConfig) (fs : FS) (now : Nat)
    (level : Nat) (cg : CGroup) (m : Metric)
    (hm : m ∈ cfg.recurse_cgroup fs now cg level) :
    m.timestamp = now ∧
    ∃ segs : List String,
      m.tags = mkTags (segs.foldl join_name cg.name) ∧
      segs.length ≤ cfg.cgroups.levels - level ∧
      chainOk cfg.cgroups.groups cg.name segs ∧
      (fs.wf = true → ∀ s ∈ segs, validSegB s = true) := by
  rw [HostMetricsConfig.recurse_cgroup] at hm
  rcases List.mem_append.mp hm with hab | hch
  rcases List.mem_append.mp hab with hcm | hmm
  · rcases hc : filter_result_sync (cg.load_cpu fs)
        "Failed to load/parse cgroups CPU statistics" with _ | cpu
    · rw [hc] at hcm
      simp at hcm
    · rw [hc] at hcm
      have h3 : m = cfg.counter "cgroup_cpu_usage_seconds_total" now
            (.usecAsSecs cpu.usage_usec) (mkTags cg.name) ∨
          m = cfg.counter "cgroup_cpu_user_seconds_total" now
            (.usecAsSecs cpu.user_usec) (mkTags cg.name) ∨
          m = cfg.counter "cgroup_cpu_system_seconds_total" now
            (.usecAsSecs cpu.system_usec) (mkTags cg.name) := by
        simpa using hcm
      rcases h3 with rfl | rfl | rfl <;>
        exact ⟨rfl, [], rfl, Nat.zero_le _, trivial, fun _ s hs => absurd hs (List.not_mem_nil s)⟩
  · by_cases hroot : cg.is_root
    · rw [if_pos hroot] at hmm
      cases hmm
    · rw [if_neg hroot] at hmm
      rcases List.mem_append.mp hmm with hm1 | hm2
      · rcases hc : filter_result_sync (cg.load_memory_current fs)
            "Failed to load/parse cgroups current memory" with _ | v
        · rw [hc] at hm1
          simp at hm1
        · rw [hc] at hm1
          have h1 : m = cfg.gauge "cgroup_memory_current_bytes" now (.bytes v)
              (mkTags cg.name) := by simpa using hm1
          subst h1
          exact ⟨rfl, [], rfl, Nat.zero_le _, trivial,
            fun _ s hs => absurd hs (List.not_mem_nil s)⟩
      · rcases hc : filter_result_sync (cg.load_memory_stat fs)
            "Failed to load/parse cgroups memory statistics" with _ | stat
        · rw [hc] at hm2
          simp at hm2
        · rw [hc] at hm2
          have h2 : m = cfg.gauge "cgroup_memory_anon_bytes" now (.bytes stat.anon)
                (mkTags cg.name) ∨
              m = cfg.gauge "cgroup_memory_file_bytes" now (.bytes stat.file)
                (mkTags cg.name) := by simpa using hm2
          rcases h2 with rfl | rfl <;>
            exact ⟨rfl, [], rfl, Nat.zero_le _, trivial,
              fun _ s hs => absurd hs (List.not_mem_nil s)⟩
  · by_cases h : level < cfg.cgroups.levels
    · rw [dif_pos h] at hch
      rcases hcs : filter_result_sync (cg.children fs) "Failed to load cgroups children"
        with _ | cs
      · rw [hcs] at hch
        simp at hch
      rw [hcs] at hch
      obtain ⟨child, hchild, hmf⟩ := List.mem_flatMap.mp hch
      by_cases hacc : cfg.cgroups.groups.contains_path child.name = true
      · rw [if_pos hacc] at hmf
        obtain ⟨hts, segs, htags, hlen, hchain, hvalid⟩ :=
          mem_recurse_shape cfg fs now (level + 1) child m hmf
        have hcs' : cg.children fs = .ok cs := filter_result_some _ _ _ hcs
        obtain ⟨entries, n, hread, hn, _hdir, rfl⟩ :=
          children_mem_shape fs cg cs child hcs' hchild
        refine ⟨hts, n :: segs, ?_, ?_, ?_, ?_⟩
        · rw [List.foldl_cons]
          exact htags
        · rw [List.length_cons]
          omega
        · exact ⟨hacc, hchain⟩
        · intro hwf s hs
          rcases List.mem_cons.mp hs with rfl | hs2
          · exact wf_entry fs cg.root entries s hwf hread hn
          · exact hvalid hwf s hs2
      · rw [if_neg hacc] at hmf
        cases hmf
    · rw [dif_neg h] at hch
      cases hch
termination_by cfg.cgroups.levels - level
decreasing_by simp_wf; omega

/-! ## Joined-name string analysis -/

theorem validSegB_spec (s : String) (h : validSegB s = true) :
    s.data ≠ [] ∧ '/' ∉ s.data := by
  unfold validSegB at h
  rw [Bool.and_eq_true] at h
  obtain ⟨h1, h2⟩ := h
  constructor
  · intro hd
    have : s = "" := String.ext (by simpa using hd)
    simp [this] at h1
  · intro hm
    simp [hm] at h2

theorem strStartsWith_slash_false (s : String) (h : '/' ∉ s.data) :
    strStartsWith s "/" = false := by
  unfold strStartsWith
  cases hh : List.isPrefixOf "/".data s.data with
  | false => rfl
  | true =>
    exfalso
    have hpre : ("/" : String).data <+: s.data := List.isPrefixOf_iff_prefix.mp hh
    exact h (hpre.subset (by simp))

/-- One step of `join_name` away from the root literal concatenates with a
separator. -/
theorem join_name_data (b s : String) (hb : b.data ≠ ['/'])
    (hs : validSegB s = true) :
    (join_name b s).data = b.data ++ '/' :: s.data := by
  obtain ⟨_hne, hnos⟩ := validSegB_spec s hs
  unfold join_name
  have hbne : ¬ b = "/" := fun hb2 => hb (by rw [hb2])
  rw [if_neg hbne, if_neg (by simp [strStartsWith_slash_false s hnos])]
  simp [String.data_append]

theorem join_name_ne_root (b s : String) (hb : b.data ≠ ['/'])
    (hs : validSegB s = true) : (join_name b s).data ≠ ['/'] := by
  obtain ⟨hsne, _⟩ := validSegB_spec s hs
  intro hct
  rw [join_name_data b s hb hs] at hct
  have hlen2 := congrArg List.length hct
  simp only [List.length_append, List.length_cons, List.length_nil] at hlen2
  have hz : s.data.length = 0 := by omega
  exact hsne (List.length_eq_zero.mp hz)

/-- Growth of joined names: once the accumulator is not the root literal,
appending wellformed segments only lengthens it and never yields the root
literal again. -/
theorem nameExt_grow (segs : List String) : ∀ b : String, b.data ≠ ['/'] →
    (∀ s ∈ segs, validSegB s = true) →
    b.data.length ≤ (segs.foldl join_name b).data.length ∧
    (segs.foldl join_name b).data ≠ ['/'] := by
  induction segs with
  | nil => exact fun b hb _ => ⟨Nat.le_refl _, hb⟩
  | cons s rest ih =>
    intro b hb hv
    have hs : validSegB s = true := hv s (List.mem_cons_self s rest)
    have hdata := join_name_data b s hb hs
    have hlen : b.data.length + 1 ≤ (join_name b s).data.length := by
      rw [hdata]
      simp only [List.length_append, List.length_cons]
      omega
    have hne : (join_name b s).data ≠ ['/'] := join_name_ne_root b s hb hs
    obtain ⟨ha, hb2⟩ := ih (join_name b s) hne (fun t ht => hv t (List.mem_cons_of_mem s ht))
    rw [List.foldl_cons]
    exact ⟨by omega, hb2⟩

/-- The character data of a chain of joined segments, with explicit
separators. -/
def joinedData : List (List Char) → List Char
  | [] => []
  | [s] => s
  | s :: t :: rest => s ++ '/' :: joinedData (t :: rest)

theorem joinedData_merge (x y : List Char) (L : List (List Char)) :
    joinedData ((x ++ '/' :: y) :: L) = x ++ '/' :: joinedData (y :: L) := by
  cases L with
  | nil => rfl
  | cons c cs => simp [joinedData, List.append_assoc]

theorem nameExt_data (segs : List String) : ∀ b : String, b.data ≠ ['/'] →
    (∀ s ∈ segs, validSegB s = true) →
    (segs.foldl join_name b).data = joinedData (b.data :: segs.map String.data) := by
  induction segs with
  | nil => exact fun b _ _ => rfl
  | cons s rest ih =>
    intro b hb hv
    have hs : validSegB s = true := hv s (List.mem_cons_self s rest)
    have hdata := join_name_data b s hb hs
    have hne : (join_name b s).data ≠ ['/'] := join_name_ne_root b s hb hs
    rw [List.foldl_cons, ih (join_name b s) hne (fun t ht => hv t (List.mem_cons_of_mem s ht)),
      List.map_cons, hdata, joinedData_merge]
    rfl

theorem prefix_of_append_of_le (a b c : List Char) (h : a <+: b ++ c)
    (hlen : a.length ≤ b.length) : a <+: b := by
  rw [List.prefix_iff_eq_take] at h
  rw [List.take_append_of_le_length hlen] at h
  rw [h]
  exact List.take_prefix a.length b

/-- Boundary analysis: if `n` followed by a separator is a prefix of a
separator-joined chain of separator-free parts, then `n` is exactly the
join of the first `j` parts for some strictly internal `j`. -/
theorem joinedData_boundary : ∀ (parts : List (List Char)),
    (∀ p ∈ parts, '/' ∉ p) → ∀ n : List Char, (n ++ ['/']) <+: joinedData parts →
    ∃ j, 1 ≤ j ∧ j < parts.length ∧ n = joinedData (parts.take j)
  | [], _, n, hpre => by
    exfalso
    have := hpre.length_le
    simp [joinedData] at this
  | [s], hp, n, hpre => by
    exfalso
    have hmem : '/' ∈ s := hpre.subset (by simp)
    exact hp s (List.mem_cons_self s []) hmem
  | s :: t :: rest, hp, n, hpre => by
    have hsep : joinedData (s :: t :: rest) = s ++ '/' :: joinedData (t :: rest) := rfl
    rw [hsep] at hpre
    rcases Nat.lt_trichotomy n.length s.length with hlt | heq | hgt
    · exfalso
      have hps : n ++ ['/'] <+: s :=
        prefix_of_append_of_le (n ++ ['/']) s ('/' :: joinedData (t :: rest)) hpre
          (by simp; omega)
      exact hp s (List.mem_cons_self s (t :: rest)) (hps.subset (by simp))
    · have hns : n = s := by
        have h1 : n <+: s ++ '/' :: joinedData (t :: rest) :=
          (List.prefix_append n ['/']).trans hpre
        have h2 : s <+: s ++ '/' :: joinedData (t :: rest) := ⟨_, rfl⟩
        rcases List.prefix_or_prefix_of_prefix h1 h2 with hc | hc
        · exact hc.eq_of_length heq
        · exact (hc.eq_of_length heq.symm).symm
      exact ⟨1, Nat.le_refl 1, by simp, by rw [hns]; rfl⟩
    · have hs1 : s ++ ['/'] <+: s ++ '/' :: joinedData (t :: rest) := by
        refine (List.prefix_append_right_inj s).mpr ?_
        exact ⟨joinedData (t :: rest), rfl⟩
      have hsn : s ++ ['/'] <+: n ++ ['/'] := by
        rcases List.prefix_or_prefix_of_prefix hs1 hpre with hc | hc
        · exact hc
        · exfalso
          have := hc.length_le
          simp at this
          omega
      have hsn2 : s ++ ['/'] <+: n := by
        apply prefix_of_append_of_le (s ++ ['/']) n ['/'] hsn
        simp
        omega
      obtain ⟨n2, hn2⟩ := hsn2
      have hcancel : n2 ++ ['/'] <+: joinedData (t :: rest) := by
        have hstep : (s ++ ['/']) ++ (n2 ++ ['/']) <+:
            (s ++ ['/']) ++ joinedData (t :: rest) := by
          have he1 : (s ++ ['/']) ++ (n2 ++ ['/']) = n ++ ['/'] := by
            rw [← hn2]
            simp
          have he2 : (s ++ ['/']) ++ joinedData (t :: rest) =
              s ++ '/' :: joinedData (t :: rest) := by simp
          rw [he1, he2]
          exact hpre
        exact (List.prefix_append_right_inj (s ++ ['/'])).mp hstep
      obtain ⟨j2, hj1, hj2, hj3⟩ := joinedData_boundary (t :: rest)
        (fun p hmem => hp p (List.mem_cons_of_mem s hmem)) n2 hcancel
      have hj2c : j2 < rest.length + 1 := by simpa using hj2
      refine ⟨j2 + 1, by omega, ?_, ?_⟩
      · simp only [List.length_cons]
        omega
      · have htake : (s :: t :: rest).take (j2 + 1) = s :: (t :: rest).take j2 := rfl
        rw [htake]
        have hjoin : joinedData (s :: (t :: rest).take j2) =
            s ++ '/' :: joinedData ((t :: rest).take j2) := by
          cases hJ : (t :: rest).take j2 with
          | nil =>
            exfalso
            have hlt : ((t :: rest).take j2).length = min j2 (t :: rest).length := by
              simp
            rw [hJ] at hlt
            simp at hlt
            omega
          | cons a b => rfl
        rw [hjoin, ← hj3, ← hn2]
        simp

/-! ## Per-read sample membership lemmas -/

theorem cpu_samples_mem (cfg : HostMetricsConfig) (fs : FS) (now : Nat) (level : Nat)
    (cg : CGroup) (cpu : CpuStat) (h : cg.load_cpu fs = .ok cpu) :
    cfg.counter "cgroup_cpu_usage_seconds_total" now (MetricValue.usecAsSecs cpu.usage_usec)
      (mkTags cg.name) ∈ cfg.recurse_cgroup fs now cg level ∧
    cfg.counter "cgroup_cpu_user_seconds_total" now (MetricValue.usecAsSecs cpu.user_usec)
      (mkTags cg.name) ∈ cfg.recurse_cgroup fs now cg level ∧
    cfg.counter "cgroup_cpu_system_seconds_total" now (MetricValue.usecAsSecs cpu.system_usec)
      (mkTags cg.name) ∈ cfg.recurse_cgroup fs now cg level := by
  rw [HostMetricsConfig.recurse_cgroup, h]
  refine ⟨?_, ?_, ?_⟩ <;>
    (apply List.mem_append.mpr; left; apply List.mem_append.mpr; left;
     simp [filter_result_sync, Except.toOption])

theorem memcur_sample_mem (cfg : HostMetricsConfig) (fs : FS) (now : Nat) (level : Nat)
    (cg : CGroup) (v : Nat) (hroot : cg.is_root = false)
    (h : cg.load_memory_current fs = .ok v) :
    cfg.gauge "cgroup_memory_current_bytes" now (MetricValue.bytes v) (mkTags cg.name) ∈
      cfg.recurse_cgroup fs now cg level := by
  rw [HostMetricsConfig.recurse_cgroup, h]
  apply List.mem_append.mpr; left
  apply List.mem_append.mpr; right
  rw [if_neg (by simp [hroot])]
  apply List.mem_append.mpr; left
  simp [filter_result_sync, Except.toOption]

theorem memstat_samples_mem (cfg : HostMetricsConfig) (fs : FS) (now : Nat) (level : Nat)
    (cg : CGroup) (st : MemoryStat) (hroot : cg.is_root = false)
    (h : cg.load_memory_stat fs = .ok st) :
    cfg.gauge "cgroup_memory_anon_bytes" now (MetricValue.bytes st.anon) (mkTags cg.name) ∈
      cfg.recurse_cgroup fs now cg level ∧
    cfg.gauge "cgroup_memory_file_bytes" now (MetricValue.bytes st.file) (mkTags cg.name) ∈
      cfg.recurse_cgroup fs now cg level := by
  rw [HostMetricsConfig.recurse_cgroup, h]
  refine ⟨?_, ?_⟩ <;>
    (apply List.mem_append.mpr; left;
     apply List.mem_append.mpr; right;
     rw [if_neg (by simp [hroot])];
     apply List.mem_append.mpr; right;
     simp [filter_result_sync, Except.toOption])

theorem child_samples_mem (cfg : HostMetricsConfig) (fs : FS) (now : Nat) (level : Nat)
    (cg : CGroup) (hlev : level < cfg.cgroups.levels) (cs : List CGroup)
    (hcs : cg.children fs = .ok cs) (c : CGroup) (hc : c ∈ cs)
    (hacc : cfg.cgroups.groups.contains_path c.name = true) :
    ∀ m ∈ cfg.recurse_cgroup fs now c (level + 1), m ∈ cfg.recurse_cgroup fs now cg level := by
  intro m hm
  rw [HostMetricsConfig.recurse_cgroup, hcs]
  apply List.mem_append.mpr; right
  rw [dif_pos hlev]
  have hred : filter_result_sync (Except.ok cs : Except IoError (List CGroup))
      "Failed to load cgroups children" = some cs := rfl
  rw [hred]
  apply List.mem_flatMap.mpr
  exact ⟨c, hc, by rw [if_pos hacc]; exact hm⟩

/-- Every memory-named sample produced anywhere in the traversal is tagged
with the name of a non-root node, because the source skips all memory reads
when `is_root()` holds. -/
theorem mem_memory_not_root (cfg : HostMetricsConfig) (fs : FS) (now : Nat)
    (level : Nat) (cg : CGroup) (m : Metric)
    (hm : m ∈ cfg.recurse_cgroup fs now cg level)
    (hname : m.name = "cgroup_memory_current_bytes" ∨ m.name = "cgroup_memory_anon_bytes" ∨
      m.name = "cgroup_memory_file_bytes") :
    ∃ nm, m.tags = mkTags nm ∧ nm ≠ "/" := by
  rw [HostMetricsConfig.recurse_cgroup] at hm
  rcases List.mem_append.mp hm with hab | hch
  rcases List.mem_append.mp hab with hcm | hmm
  · rcases hc : filter_result_sync (cg.load_cpu fs)
        "Failed to load/parse cgroups CPU statistics" with _ | cpu
    · rw [hc] at hcm
      simp at hcm
    · rw [hc] at hcm
      have h3 : m = cfg.counter "cgroup_cpu_usage_seconds_total" now
            (.usecAsSecs cpu.usage_usec) (mkTags cg.name) ∨
          m = cfg.counter "cgroup_cpu_user_seconds_total" now
            (.usecAsSecs cpu.user_usec) (mkTags cg.name) ∨
          m = cfg.counter "cgroup_cpu_system_seconds_total" now
            (.usecAsSecs cpu.system_usec) (mkTags cg.name) := by
        simpa using hcm
      rcases h3 with rfl | rfl | rfl <;> rcases hname with hh | hh | hh <;>
        simp [HostMetricsConfig.counter] at hh
  · by_cases hroot : cg.is_root = true
    · rw [if_pos hroot] at hmm
      cases hmm
    · rw [if_neg hroot] at hmm
      have hnm : cg.name ≠ "/" := by
        intro hc2
        exact hroot (by simp [CGroup.is_root, hc2])
      rcases List.mem_append.mp hmm with hm1 | hm2
      · rcases hc : filter_result_sync (cg.load_memory_current fs)
            "Failed to load/parse cgroups current memory" with _ | v
        · rw [hc] at hm1
          simp at hm1
        · rw [hc] at hm1
          have h1 : m = cfg.gauge "cgroup_memory_current_bytes" now (.bytes v)
              (mkTags cg.name) := by simpa using hm1
          subst h1
          exact ⟨cg.name, rfl, hnm⟩
      · rcases hc : filter_result_sync (cg.load_memory_stat fs)
            "Failed to load/parse cgroups memory statistics" with _ | st
        · rw [hc] at hm2
          simp at hm2
        · rw [hc] at hm2
          have h2 : m = cfg.gauge "cgroup_memory_anon_bytes" now (.bytes st.anon)
                (mkTags cg.name) ∨
              m = cfg.gauge "cgroup_memory_file_bytes" now (.bytes st.file)
                (mkTags cg.name) := by simpa using hm2
          rcases h2 with rfl | rfl <;> exact ⟨cg.name, rfl, hnm⟩
  · by_cases h : level < cfg.cgroups.levels
    · rw [dif_pos h] at hch
      rcases hcs : filter_result_sync (cg.children fs) "Failed to load cgroups children"
        with _ | cs
      · rw [hcs] at hch
        simp at hch
      rw [hcs] at hch
      obtain ⟨child, _hchild, hmf⟩ := List.mem_flatMap.mp hch
      by_cases hacc : cfg.cgroups.groups.contains_path child.name = true
      · rw [if_pos hacc] at hmf
        exact mem_memory_not_root cfg fs now (level + 1) child m hmf hname
      · rw [if_neg hacc] at hmf
        cases hmf
    · rw [dif_neg h] at hch
      cases hch
termination_by cfg.cgroups.levels - level
decreasing_by simp_wf; omega

/-! ## Chain-filter lemmas -/

theorem chainOk_take (groups : FilterList) :
    ∀ (segs : List String) (base : String) (j : Nat), chainOk groups base segs →
      1 ≤ j → j ≤ segs.length →
      groups.contains_path ((segs.take j).foldl join_name base) = true := by
  intro segs
  induction segs with
  | nil =>
    intro base j _ h1 h2
    simp at h2
    omega
  | cons s rest ih =>
    intro base j hchain h1 h2
    obtain ⟨hf, hrest⟩ := hchain
    match j with
    | 1 => exact hf
    | (k + 2) =>
      have hk : k + 1 ≤ rest.length := by
        simp only [List.length_cons] at h2
        omega
      have := ih (join_name base s) (k + 1) hrest (by omega) hk
      simpa using this

theorem chainOk_full (groups : FilterList) (segs : List String) (base : String)
    (h : chainOk groups base segs) (hne : segs ≠ []) :
    groups.contains_path (segs.foldl join_name base) = true := by
  have hpos : 1 ≤ segs.length := List.length_pos.mpr hne
  have := chainOk_take groups segs base segs.length h hpos (Nat.le_refl _)
  rwa [List.take_length] at this

theorem mkTags_inj (a b : String) (h : mkTags a = mkTags b) : a = b := by
  simpa [mkTags] using h

/-- Evaluation of the unrestricted probe. -/
theorem find_root_none_eval (fs : FS) :
    CGroup.find_root fs none =
      (if fs.is_dir (join_path (join_path fs.sysfs_root "fs/cgroup") "unified") then
        some ⟨join_path (join_path fs.sysfs_root "fs/cgroup") "unified", "/"⟩
      else if fs.is_file (join_path (join_path fs.sysfs_root "fs/cgroup") "cgroup.procs") then
        some ⟨join_path fs.sysfs_root "fs/cgroup", "/"⟩
      else none) := by
  unfold CGroup.find_root
  by_cases h1 : fs.is_dir (join_path (join_path fs.sysfs_root "fs/cgroup") "unified") = true
  · simp [h1]
  · simp only [Bool.not_eq_true] at h1
    by_cases h2 :
        fs.is_file (join_path (join_path fs.sysfs_root "fs/cgroup") "cgroup.procs") = true
    · simp [h1, h2]
    · simp only [Bool.not_eq_true] at h2
      simp [h1, h2]

/-- An unrestricted probe (`base_group = None`) always names the root `/`. -/
theorem find_root_none_name (fs : FS) (root : CGroup)
    (h : CGroup.find_root fs none = some root) : root.name = "/" := by
  rw [find_root_none_eval] at h
  by_cases h1 : fs.is_dir (join_path (join_path fs.sysfs_root "fs/cgroup") "unified") = true
  · rw [if_pos h1] at h
    cases h
    rfl
  · rw [if_neg (by simp [h1])] at h
    by_cases h2 :
        fs.is_file (join_path (join_path fs.sysfs_root "fs/cgroup") "cgroup.procs") = true
    · rw [if_pos h2] at h
      cases h
      rfl
    · rw [if_neg (by simp [h2])] at h
      cases h

/-! ## Claims about the traversal -/

/-- C2. With `levels = L ≥ 1`, the traversal starting at the root at depth 1
never produces a sample for a node deeper than `L`: every sample's tag set
is the tag map of a node reached from the root by at most `L - 1` child
segments (a node at depth `1 + segs.length ≤ L`); moreover once the depth
budget is exhausted (`level ≥ levels`) a call contributes only samples of
its own node, since it does not enumerate children at all. -/
theorem C2_depth_bound (cfg : HostMetricsConfig) (fs : FS) (now : Nat)
    (hL : 1 ≤ cfg.cgroups.levels) :
    (∀ m ∈ cfg.cgroups_metrics fs now,
      ∃ (root : CGroup) (segs : List String),
        CGroup.find_root fs cfg.cgroups.base = some root ∧
        m.tags = mkTags (segs.foldl join_name root.name) ∧
        segs.length + 1 ≤ cfg.cgroups.levels) ∧
    (∀ level cg m, cfg.cgroups.levels ≤ level →
      m ∈ cfg.recurse_cgroup fs now cg level → m.tags = mkTags cg.name) := by
  constructor
  · intro m hm
    unfold HostMetricsConfig.cgroups_metrics at hm
    cases hroot : CGroup.find_root fs cfg.cgroups.base with
    | none =>
      rw [hroot] at hm
      cases hm
    | some root =>
      rw [hroot] at hm
      obtain ⟨_, segs, htags, hlen, _, _⟩ := mem_recurse_shape cfg fs now 1 root m hm
      exact ⟨root, segs, rfl, htags, by omega⟩
  · intro level cg m hlev hm
    obtain ⟨_, segs, htags, hlen, _, _⟩ := mem_recurse_shape cfg fs now level cg m hm
    have hz : segs.length = 0 := by omega
    rw [List.length_eq_zero.mp hz] at htags
    exact htags

/-- Witness for C2 on a two-level filesystem with `levels = 1`: the root's
usage sample, which is in the pass output, has a tag chain of length 0. -/
theorem C2_depth_bound_witness :
    ∃ (root : CGroup) (segs : List String),
      CGroup.find_root
        { sysfs_root := "/sys", dir_paths := ["/sys/fs/cgroup/a"],
          file_paths := ["/sys/fs/cgroup/cgroup.procs"],
          file_contents := [("/sys/fs/cgroup/cpu.stat", "usage_usec 5"),
                            ("/sys/fs/cgroup/a/cpu.stat", "usage_usec 6")],
          dir_listings := [("/sys/fs/cgroup", [some "a"])] } none = some root ∧
      (HostMetricsConfig.counter ⟨⟨1, none, fun _ => true⟩⟩
        "cgroup_cpu_usage_seconds_total" 0 (MetricValue.usecAsSecs 5)
        (mkTags "/")).tags = mkTags (segs.foldl join_name root.name) ∧
      segs.length + 1 ≤ 1 := by
  have hm := (cpu_samples_mem ⟨⟨1, none, fun _ => true⟩⟩
    { sysfs_root := "/sys", dir_paths := ["/sys/fs/cgroup/a"],
      file_paths := ["/sys/fs/cgroup/cgroup.procs"],
      file_contents := [("/sys/fs/cgroup/cpu.stat", "usage_usec 5"),
                        ("/sys/fs/cgroup/a/cpu.stat", "usage_usec 6")],
      dir_listings := [("/sys/fs/cgroup", [some "a"])] } 0 1
    ⟨"/sys/fs/cgroup", "/"⟩ ⟨5, 0, 0⟩ rfl).1
  exact (C2_depth_bound ⟨⟨1, none, fun _ => true⟩⟩
    { sysfs_root := "/sys", dir_paths := ["/sys/fs/cgroup/a"],
      file_paths := ["/sys/fs/cgroup/cgroup.procs"],
      file_contents := [("/sys/fs/cgroup/cpu.stat", "usage_usec 5"),
                        ("/sys/fs/cgroup/a/cpu.stat", "usage_usec 6")],
      dir_listings := [("/sys/fs/cgroup", [some "a"])] } 0 (by decide)).1 _ hm

/-- C3. For every name `n` the groups filter rejects — with `n` neither the
root sentinel `/` nor empty, which on a wellformed filesystem no child name
can be — the unrestricted collection pass contains no sample tagged `n` nor
any sample tagged with a name beneath `n` (one having `n/` as a prefix):
rejected children are never recursed into, so neither they nor any
descendant contributes a sample. -/
theorem C3_filter_prunes_subtrees (cfg : HostMetricsConfig) (fs : FS) (now : Nat)
    (n : String) (hwf : fs.wf = true) (hbase : cfg.cgroups.base = none)
    (hrej : cfg.cgroups.groups.contains_path n = false)
    (hne : n ≠ "") (hnr : n ≠ "/") :
    ∀ m ∈ cfg.cgroups_metrics fs now, ∀ nm, m.tags = mkTags nm →
      nm ≠ n ∧ ¬ (n ++ "/").data <+: nm.data := by
  intro m hm nm htag
  unfold HostMetricsConfig.cgroups_metrics at hm
  rw [hbase] at hm
  cases hroot : CGroup.find_root fs none with
  | none =>
    rw [hroot] at hm
    cases hm
  | some root =>
    rw [hroot] at hm
    have hrname : root.name = "/" := find_root_none_name fs root hroot
    obtain ⟨_, segs, htags2, _, hchain, hvalid⟩ := mem_recurse_shape cfg fs now 1 root m hm
    have hv := hvalid hwf
    rw [hrname] at htags2 hchain
    have hnm : nm = segs.foldl join_name "/" := mkTags_inj _ _ (htag.symm.trans htags2)
    cases segs with
    | nil =>
      constructor
      · rw [hnm]
        exact fun hc => hnr hc.symm
      · intro hpre
        rw [hnm] at hpre
        simp only [List.foldl_nil] at hpre
        obtain ⟨r, hr⟩ := hpre
        rw [String.data_append] at hr
        have hslash : ("/" : String).data = ['/'] := rfl
        rw [hslash] at hr
        have hlen := congrArg List.length hr
        simp only [List.length_append, List.length_cons, List.length_nil] at hlen
        have hz : n.data = [] := List.length_eq_zero.mp (by omega)
        exact hne (String.ext (by rw [hz]))
    | cons s rest =>
      have hfold : (s :: rest).foldl join_name "/" = rest.foldl join_name s := by
        simp [join_name]
      have hvs : validSegB s = true := hv s (List.mem_cons_self s rest)
      obtain ⟨hsne, hsnos⟩ := validSegB_spec s hvs
      have hsroot : s.data ≠ ['/'] := fun hc => hsnos (by rw [hc]; simp)
      constructor
      · intro hc
        have hfull := chainOk_full cfg.cgroups.groups (s :: rest) "/" hchain (by simp)
        rw [← hnm, hc] at hfull
        rw [hfull] at hrej
        cases hrej
      · intro hpre
        rw [hnm, hfold] at hpre
        have hdata : (rest.foldl join_name s).data =
            joinedData (s.data :: rest.map String.data) :=
          nameExt_data rest s hsroot (fun t ht => hv t (List.mem_cons_of_mem s ht))
        rw [hdata, String.data_append] at hpre
        have hslash : ("/" : String).data = ['/'] := rfl
        rw [hslash] at hpre
        have hparts : ∀ p ∈ s.data :: rest.map String.data, '/' ∉ p := by
          intro p hp
          rcases List.mem_cons.mp hp with rfl | hp2
          · exact hsnos
          · obtain ⟨t, ht, rfl⟩ := List.mem_map.mp hp2
            exact (validSegB_spec t (hv t (List.mem_cons_of_mem s ht))).2
        obtain ⟨j, hj1, hj2, hj3⟩ := joinedData_boundary _ hparts n.data hpre
        obtain ⟨k, rfl⟩ : ∃ k, j = k + 1 := ⟨j - 1, by omega⟩
        have htakeparts : (s.data :: rest.map String.data).take (k + 1) =
            s.data :: (rest.take k).map String.data := by
          simp [List.map_take]
        rw [htakeparts] at hj3
        have hvtake : ∀ t ∈ rest.take k, validSegB t = true :=
          fun t ht => hv t (List.mem_cons_of_mem s (List.mem_of_mem_take ht))
        have hdata2 : ((rest.take k).foldl join_name s).data =
            joinedData (s.data :: (rest.take k).map String.data) :=
          nameExt_data (rest.take k) s hsroot hvtake
        have hn : n = (rest.take k).foldl join_name s := String.ext (by rw [hj3, hdata2])
        have hacc := chainOk_take cfg.cgroups.groups (s :: rest) "/" (k + 1) hchain
          (by omega) (by simp at hj2 ⊢; omega)
        have htake2 : ((s :: rest).take (k + 1)).foldl join_name "/" =
            (rest.take k).foldl join_name s := by
          simp [join_name]
        rw [htake2, ← hn] at hacc
        rw [hacc] at hrej
        cases hrej

/-- Witness for C3: with the filter rejecting exactly `system.slice`, the
admitted child `user.slice`'s usage sample is in the pass output, and the
claim theorem applied to it shows its tag is neither `system.slice` nor
beneath it. -/
theorem C3_filter_prunes_subtrees_witness :
    ("user.slice" : String) ≠ "system.slice" ∧
    ¬ ("system.slice" ++ "/").data <+: ("user.slice" : String).data := by
  have hm1 := (cpu_samples_mem ⟨⟨3, none, fun g => g != "system.slice"⟩⟩
    { sysfs_root := "/sys",
      dir_paths := ["/sys/fs/cgroup/user.slice", "/sys/fs/cgroup/system.slice"],
      file_paths := ["/sys/fs/cgroup/cgroup.procs"],
      file_contents := [("/sys/fs/cgroup/cpu.stat", "usage_usec 5"),
                        ("/sys/fs/cgroup/user.slice/cpu.stat", "usage_usec 6"),
                        ("/sys/fs/cgroup/system.slice/cpu.stat", "usage_usec 7")],
      dir_listings :=
        [("/sys/fs/cgroup", [some "user.slice", some "system.slice"])] } 0 2
    ⟨"/sys/fs/cgroup/user.slice", "user.slice"⟩ ⟨6, 0, 0⟩ rfl).1
  have hm0 := child_samples_mem ⟨⟨3, none, fun g => g != "system.slice"⟩⟩
    { sysfs_root := "/sys",
      dir_paths := ["/sys/fs/cgroup/user.slice", "/sys/fs/cgroup/system.slice"],
      file_paths := ["/sys/fs/cgroup/cgroup.procs"],
      file_contents := [("/sys/fs/cgroup/cpu.stat", "usage_usec 5"),
                        ("/sys/fs/cgroup/user.slice/cpu.stat", "usage_usec 6"),
                        ("/sys/fs/cgroup/system.slice/cpu.stat", "usage_usec 7")],
      dir_listings :=
        [("/sys/fs/cgroup", [some "user.slice", some "system.slice"])] } 0 1
    ⟨"/sys/fs/cgroup", "/"⟩ (by decide)
    [⟨"/sys/fs/cgroup/user.slice", "user.slice"⟩,
     ⟨"/sys/fs/cgroup/system.slice", "system.slice"⟩] rfl
    ⟨"/sys/fs/cgroup/user.slice", "user.slice"⟩ (by decide) (by decide) _ hm1
  exact C3_filter_prunes_subtrees ⟨⟨3, none, fun g => g != "system.slice"⟩⟩
    { sysfs_root := "/sys",
      dir_paths := ["/sys/fs/cgroup/user.slice", "/sys/fs/cgroup/system.slice"],
      file_paths := ["/sys/fs/cgroup/cgroup.procs"],
      file_contents := [("/sys/fs/cgroup/cpu.stat", "usage_usec 5"),
                        ("/sys/fs/cgroup/user.slice/cpu.stat", "usage_usec 6"),
                        ("/sys/fs/cgroup/system.slice/cpu.stat", "usage_usec 7")],
      dir_listings :=
        [("/sys/fs/cgroup", [some "user.slice", some "system.slice"])] } 0
    "system.slice" (by decide) rfl (by decide) (by decide) (by decide) _ hm0
    "user.slice" rfl

/-- C4. Memory samples are never tagged with the root sentinel: no sample
named `cgroup_memory_current_bytes`, `cgroup_memory_anon_bytes` or
`cgroup_memory_file_bytes` ever carries `cgroup=/` (first conjunct, over
any collection pass); with a detected hierarchy and no base restriction the
root node still yields its three CPU counter samples when `cpu.stat` reads
successfully (second conjunct); and both memory reads are attempted for
every visited non-root node — their samples appear whenever the read
succeeds (third and fourth conjuncts). -/
theorem C4_root_memory_excluded (cfg : HostMetricsConfig) (fs : FS) (now : Nat) :
    (∀ m ∈ cfg.cgroups_metrics fs now,
      (m.name = "cgroup_memory_current_bytes" ∨ m.name = "cgroup_memory_anon_bytes" ∨
       m.name = "cgroup_memory_file_bytes") → m.tags ≠ mkTags "/") ∧
    (cfg.cgroups.base = none →
      ∀ rt cpu, CGroup.find_root fs none = some rt → rt.load_cpu fs = .ok cpu →
        cfg.counter "cgroup_cpu_usage_seconds_total" now
          (MetricValue.usecAsSecs cpu.usage_usec) (mkTags "/") ∈ cfg.cgroups_metrics fs now ∧
        cfg.counter "cgroup_cpu_user_seconds_total" now
          (MetricValue.usecAsSecs cpu.user_usec) (mkTags "/") ∈ cfg.cgroups_metrics fs now ∧
        cfg.counter "cgroup_cpu_system_seconds_total" now
          (MetricValue.usecAsSecs cpu.system_usec) (mkTags "/") ∈ cfg.cgroups_metrics fs now) ∧
    (∀ level cg v, cg.is_root = false → cg.load_memory_current fs = .ok v →
      cfg.gauge "cgroup_memory_current_bytes" now (MetricValue.bytes v) (mkTags cg.name) ∈
        cfg.recurse_cgroup fs now cg level) ∧
    (∀ level cg st, cg.is_root = false → cg.load_memory_stat fs = .ok st →
      cfg.gauge "cgroup_memory_anon_bytes" now (MetricValue.bytes st.anon) (mkTags cg.name) ∈
        cfg.recurse_cgroup fs now cg level ∧
      cfg.gauge "cgroup_memory_file_bytes" now (MetricValue.bytes st.file) (mkTags cg.name) ∈
        cfg.recurse_cgroup fs now cg level) := by
  refine ⟨?_, ?_, ?_, ?_⟩
  · intro m hm hname htags
    unfold HostMetricsConfig.cgroups_metrics at hm
    cases hroot : CGroup.find_root fs cfg.cgroups.base with
    | none =>
      rw [hroot] at hm
      cases hm
    | some root =>
      rw [hroot] at hm
      obtain ⟨nm, hnm, hne⟩ := mem_memory_not_root cfg fs now 1 root m hm hname
      exact hne (mkTags_inj nm "/" (hnm.symm.trans htags))
  · intro hbase rt cpu hroot hcpu
    have hrname := find_root_none_name fs rt hroot
    have h3 := cpu_samples_mem cfg fs now 1 rt cpu hcpu
    rw [hrname] at h3
    unfold HostMetricsConfig.cgroups_metrics
    rw [hbase, hroot]
    exact h3
  · intro level cg v hroot hcur
    exact memcur_sample_mem cfg fs now level cg v hroot hcur
  · intro level cg st hroot hstat
    exact memstat_samples_mem cfg fs now level cg st hroot hstat

/-- Witness for C4 on a pure-v2 filesystem with one child: the root's CPU
samples are present and the child's memory samples appear on successful
reads. -/
theorem C4_root_memory_excluded_witness :
    HostMetricsConfig.counter ⟨⟨3, none, fun _ => true⟩⟩ "cgroup_cpu_usage_seconds_total" 0
      (MetricValue.usecAsSecs 5) (mkTags "/") ∈
      HostMetricsConfig.cgroups_metrics ⟨⟨3, none, fun _ => true⟩⟩
        { sysfs_root := "/sys", dir_paths := ["/sys/fs/cgroup/a"],
          file_paths := ["/sys/fs/cgroup/cgroup.procs"],
          file_contents := [("/sys/fs/cgroup/cpu.stat", "usage_usec 5"),
                            ("/sys/fs/cgroup/a/memory.current", "42")],
          dir_listings := [("/sys/fs/cgroup", [some "a"])] } 0 ∧
    HostMetricsConfig.gauge ⟨⟨3, none, fun _ => true⟩⟩ "cgroup_memory_current_bytes" 0
      (MetricValue.bytes 42) (mkTags "a") ∈
      HostMetricsConfig.recurse_cgroup ⟨⟨3, none, fun _ => true⟩⟩
        { sysfs_root := "/sys", dir_paths := ["/sys/fs/cgroup/a"],
          file_paths := ["/sys/fs/cgroup/cgroup.procs"],
          file_contents := [("/sys/fs/cgroup/cpu.stat", "usage_usec 5"),
                            ("/sys/fs/cgroup/a/memory.current", "42")],
          dir_listings := [("/sys/fs/cgroup", [some "a"])] } 0
        ⟨"/sys/fs/cgroup/a", "a"⟩ 2 := by
  constructor
  · exact ((C4_root_memory_excluded ⟨⟨3, none, fun _ => true⟩⟩
      { sysfs_root := "/sys", dir_paths := ["/sys/fs/cgroup/a"],
        file_paths := ["/sys/fs/cgroup/cgroup.procs"],
        file_contents := [("/sys/fs/cgroup/cpu.stat", "usage_usec 5"),
                          ("/sys/fs/cgroup/a/memory.current", "42")],
        dir_listings := [("/sys/fs/cgroup", [some "a"])] } 0).2.1 rfl
      ⟨"/sys/fs/cgroup", "/"⟩ ⟨5, 0, 0⟩ (by decide) rfl).1
  · exact (C4_root_memory_excluded ⟨⟨3, none, fun _ => true⟩⟩
      { sysfs_root := "/sys", dir_paths := ["/sys/fs/cgroup/a"],
        file_paths := ["/sys/fs/cgroup/cgroup.procs"],
        file_contents := [("/sys/fs/cgroup/cpu.stat", "usage_usec 5"),
                          ("/sys/fs/cgroup/a/memory.current", "42")],
        dir_listings := [("/sys/fs/cgroup", [some "a"])] } 0).2.2.1 2
      ⟨"/sys/fs/cgroup/a", "a"⟩ 42 (by decide) rfl

/-- A name grown from `b` by at least one wellformed child segment never
equals `b` itself. -/
theorem nameExt_cons_ne (b e : String) (segs : List String) (he : validSegB e = true)
    (hsegs : ∀ s ∈ segs, validSegB s = true) :
    segs.foldl join_name (join_name b e) ≠ b := by
  obtain ⟨hene, henos⟩ := validSegB_spec e he
  by_cases hb : b = "/"
  · subst hb
    have hje : join_name "/" e = e := by simp [join_name]
    rw [hje]
    have heroot : e.data ≠ ['/'] := fun hc => henos (by rw [hc]; simp)
    obtain ⟨_, hne2⟩ := nameExt_grow segs e heroot hsegs
    intro hc
    exact hne2 (by rw [hc])
  · have hbdata : b.data ≠ ['/'] := fun hc => hb (String.ext hc)
    have hjdata := join_name_data b e hbdata he
    have hjlen : b.data.length + 1 ≤ (join_name b e).data.length := by
      rw [hjdata]
      simp only [List.length_append, List.length_cons]
      omega
    have hjroot : (join_name b e).data ≠ ['/'] := join_name_ne_root b e hbdata he
    obtain ⟨hgrow, _⟩ := nameExt_grow segs (join_name b e) hjroot hsegs
    intro hc
    have hlen2 : (segs.foldl join_name (join_name b e)).data.length = b.data.length := by
      rw [hc]
    omega

/-- When `memory.stat` fails at a node, no `memory.stat`-derived sample
tagged with that node's name appears anywhere in the node's subtree
output: the node itself appends none, and (on a wellformed filesystem)
every descendant carries a strictly extended name. -/
theorem memstat_absent (cfg : HostMetricsConfig) (fs : FS) (now : Nat)
    (level : Nat) (cg : CGroup) (err : IoError) (hwf : fs.wf = true)
    (hmem : cg.load_memory_stat fs = .error err) :
    ∀ m ∈ cfg.recurse_cgroup fs now cg level,
      (m.name = "cgroup_memory_anon_bytes" ∨ m.name = "cgroup_memory_file_bytes") →
      m.tags ≠ mkTags cg.name := by
  intro m hm hname htags
  rw [HostMetricsConfig.recurse_cgroup] at hm
  rcases List.mem_append.mp hm with hab | hch
  rcases List.mem_append.mp hab with hcm | hmm
  · rcases hc : filter_result_sync (cg.load_cpu fs)
        "Failed to load/parse cgroups CPU statistics" with _ | cpu
    · rw [hc] at hcm
      simp at hcm
    · rw [hc] at hcm
      have h3 : m = cfg.counter "cgroup_cpu_usage_seconds_total" now
            (.usecAsSecs cpu.usage_usec) (mkTags cg.name) ∨
          m = cfg.counter "cgroup_cpu_user_seconds_total" now
            (.usecAsSecs cpu.user_usec) (mkTags cg.name) ∨
          m = cfg.counter "cgroup_cpu_system_seconds_total" now
            (.usecAsSecs cpu.system_usec) (mkTags cg.name) := by
        simpa using hcm
      rcases h3 with rfl | rfl | rfl <;> rcases hname with hh | hh <;>
        simp [HostMetricsConfig.counter] at hh
  · by_cases hroot : cg.is_root = true
    · rw [if_pos hroot] at hmm
      cases hmm
    · rw [if_neg hroot] at hmm
      rcases List.mem_append.mp hmm with hm1 | hm2
      · rcases hc : filter_result_sync (cg.load_memory_current fs)
            "Failed to load/parse cgroups current memory" with _ | v
        · rw [hc] at hm1
          simp at hm1
        · rw [hc] at hm1
          have h1 : m = cfg.gauge "cgroup_memory_current_bytes" now (.bytes v)
              (mkTags cg.name) := by simpa using hm1
          subst h1
          rcases hname with hh | hh <;> simp [HostMetricsConfig.gauge] at hh
      · rw [hmem] at hm2
        simp [filter_result_sync, Except.toOption] at hm2
  · by_cases h : level < cfg.cgroups.levels
    · rw [dif_pos h] at hch
      rcases hcs : filter_result_sync (cg.children fs) "Failed to load cgroups children"
        with _ | cs
      · rw [hcs] at hch
        simp at hch
      rw [hcs] at hch
      obtain ⟨child, hchild, hmf⟩ := List.mem_flatMap.mp hch
      by_cases hacc : cfg.cgroups.groups.contains_path child.name = true
      · rw [if_pos hacc] at hmf
        have hcs2 : cg.children fs = .ok cs := filter_result_some _ _ _ hcs
        obtain ⟨entries, e, hread, he, _hdir, rfl⟩ :=
          children_mem_shape fs cg cs child hcs2 hchild
        obtain ⟨_, segs, htags2, _, _, hvalid⟩ :=
          mem_recurse_shape cfg fs now (level + 1) _ m hmf
        have hev : validSegB e = true := wf_entry fs cg.root entries e hwf hread he
        have hsegv : ∀ s ∈ segs, validSegB s = true := hvalid hwf
        have heq : segs.foldl join_name (join_name cg.name e) = cg.name :=
          mkTags_inj _ _ (htags2.symm.trans htags)
        exact nameExt_cons_ne cg.name e segs hev hsegv heq
      · rw [if_neg hacc] at hmf
        cases hmf
    · rw [dif_neg h] at hch
      cases hch

/-- C6. Failures are contained to the smallest unit.  With `memory.stat`
failing at a node: its CPU counters still appear whenever `cpu.stat` reads
successfully; its `memory.current` gauge still appears whenever that read
succeeds (for a non-root node); only the two `memory.stat` gauges of that
node are missing — no sample of those names tagged with the node's name
occurs anywhere in its subtree output; and every sample of every admitted
child's recursion is still contained in the node's output, so siblings,
children and ancestors are unaffected.  The traversal is a total function
into sample lists, so it cannot abort with an error. -/
theorem C6_failure_isolation (cfg : HostMetricsConfig) (fs : FS) (now : Nat)
    (level : Nat) (cg : CGroup) (err : IoError)
    (hmem : cg.load_memory_stat fs = .error err) :
    (∀ cpu, cg.load_cpu fs = .ok cpu →
      cfg.counter "cgroup_cpu_usage_seconds_total" now
        (MetricValue.usecAsSecs cpu.usage_usec) (mkTags cg.name) ∈
        cfg.recurse_cgroup fs now cg level ∧
      cfg.counter "cgroup_cpu_user_seconds_total" now
        (MetricValue.usecAsSecs cpu.user_usec) (mkTags cg.name) ∈
        cfg.recurse_cgroup fs now cg level ∧
      cfg.counter "cgroup_cpu_system_seconds_total" now
        (MetricValue.usecAsSecs cpu.system_usec) (mkTags cg.name) ∈
        cfg.recurse_cgroup fs now cg level) ∧
    (∀ v, cg.is_root = false → cg.load_memory_current fs = .ok v →
      cfg.gauge "cgroup_memory_current_bytes" now (MetricValue.bytes v) (mkTags cg.name) ∈
        cfg.recurse_cgroup fs now cg level) ∧
    (fs.wf = true → ∀ m ∈ cfg.recurse_cgroup fs now cg level,
      (m.name = "cgroup_memory_anon_bytes" ∨ m.name = "cgroup_memory_file_bytes") →
      m.tags ≠ mkTags cg.name) ∧
    (level < cfg.cgroups.levels → ∀ cs, cg.children fs = .ok cs →
      ∀ c ∈ cs, cfg.cgroups.groups.contains_path c.name = true →
      ∀ m ∈ cfg.recurse_cgroup fs now c (level + 1),
        m ∈ cfg.recurse_cgroup fs now cg level) := by
  refine ⟨?_, ?_, ?_, ?_⟩
  · intro cpu hcpu
    exact cpu_samples_mem cfg fs now level cg cpu hcpu
  · intro v hroot hcur
    exact memcur_sample_mem cfg fs now level cg v hroot hcur
  · intro hwf
    exact memstat_absent cfg fs now level cg err hwf hmem
  · intro hlev cs hcs c hc hacc
    exact child_samples_mem cfg fs now level cg hlev cs hcs c hc hacc

/-- Witness for C6 at a node whose `memory.stat` is unreadable while
`cpu.stat` and `memory.current` read fine: the CPU and current-memory
samples are still present. -/
theorem C6_failure_isolation_witness :
    HostMetricsConfig.counter ⟨⟨3, none, fun _ => true⟩⟩ "cgroup_cpu_usage_seconds_total" 0
      (MetricValue.usecAsSecs 6) (mkTags "a") ∈
      HostMetricsConfig.recurse_cgroup ⟨⟨3, none, fun _ => true⟩⟩
        { sysfs_root := "/sys", dir_paths := [], file_paths := [],
          file_contents := [("/sys/fs/cgroup/a/cpu.stat", "usage_usec 6"),
                            ("/sys/fs/cgroup/a/memory.current", "7")],
          dir_listings := [] } 0 ⟨"/sys/fs/cgroup/a", "a"⟩ 2 ∧
    HostMetricsConfig.gauge ⟨⟨3, none, fun _ => true⟩⟩ "cgroup_memory_current_bytes" 0
      (MetricValue.bytes 7) (mkTags "a") ∈
      HostMetricsConfig.recurse_cgroup ⟨⟨3, none, fun _ => true⟩⟩
        { sysfs_root := "/sys", dir_paths := [], file_paths := [],
          file_contents := [("/sys/fs/cgroup/a/cpu.stat", "usage_usec 6"),
                            ("/sys/fs/cgroup/a/memory.current", "7")],
          dir_listings := [] } 0 ⟨"/sys/fs/cgroup/a", "a"⟩ 2 := by
  refine ⟨?_, ?_⟩
  · exact ((C6_failure_isolation ⟨⟨3, none, fun _ => true⟩⟩
      { sysfs_root := "/sys", dir_paths := [], file_paths := [],
        file_contents := [("/sys/fs/cgroup/a/cpu.stat", "usage_usec 6"),
                          ("/sys/fs/cgroup/a/memory.current", "7")],
        dir_listings := [] } 0 2 ⟨"/sys/fs/cgroup/a", "a"⟩ .fsError rfl).1
      ⟨6, 0, 0⟩ rfl).1
  · exact (C6_failure_isolation ⟨⟨3, none, fun _ => true⟩⟩
      { sysfs_root := "/sys", dir_paths := [], file_paths := [],
        file_contents := [("/sys/fs/cgroup/a/cpu.stat", "usage_usec 6"),
                          ("/sys/fs/cgroup/a/memory.current", "7")],
        dir_listings := [] } 0 2 ⟨"/sys/fs/cgroup/a", "a"⟩ .fsError rfl).2.1
      7 (by decide) rfl

/-! ## Presence of samples by name and tag set -/

/-- A sample of the given name carrying exactly the given tag set occurs in
the output. -/
def hasSample (out : List Metric) (nm : String) (t : List (String × String)) : Prop :=
  ∃ m ∈ out, m.name = nm ∧ m.tags = t

/-- The three CPU counter sample names of §4.5. -/
def isCpuName (n : String) : Prop :=
  n = "cgroup_cpu_usage_seconds_total" ∨ n = "cgroup_cpu_user_seconds_total" ∨
  n = "cgroup_cpu_system_seconds_total"

theorem hasSample_append (a b : List Metric) (nm : String) (t : List (String × String)) :
    hasSample (a ++ b) nm t ↔ hasSample a nm t ∨ hasSample b nm t := by
  constructor
  · rintro ⟨m, hm, hp⟩
    rcases List.mem_append.mp hm with h | h
    · exact Or.inl ⟨m, h, hp⟩
    · exact Or.inr ⟨m, h, hp⟩
  · rintro (⟨m, hm, hp⟩ | ⟨m, hm, hp⟩)
    · exact ⟨m, List.mem_append.mpr (Or.inl hm), hp⟩
    · exact ⟨m, List.mem_append.mpr (Or.inr hm), hp⟩

theorem hasSample_flatMap {α : Type} (l : List α) (f : α → List Metric) (nm : String)
    (t : List (String × String)) :
    hasSample (l.flatMap f) nm t ↔ ∃ c ∈ l, hasSample (f c) nm t := by
  constructor
  · rintro ⟨m, hm, hp⟩
    obtain ⟨c, hc, hmf⟩ := List.mem_flatMap.mp hm
    exact ⟨c, hc, m, hmf, hp⟩
  · rintro ⟨c, hc, m, hmf, hp⟩
    exact ⟨m, List.mem_flatMap.mpr ⟨c, hc, hmf⟩, hp⟩

/-- The three CPU counter samples of a node are produced atomically from the
single `cpu.stat` read: for any tag set, a sample named one of the three is
present in the traversal output exactly when a sample named any other of
the three with the same tag set is. -/
theorem cpu_triple_all_or_nothing (cfg : HostMetricsConfig) (fs : FS) (now : Nat)
    (level : Nat) (cg : CGroup) (t : List (String × String)) (n1 n2 : String)
    (h1 : isCpuName n1) (h2 : isCpuName n2) :
    hasSample (cfg.recurse_cgroup fs now cg level) n1 t ↔
    hasSample (cfg.recurse_cgroup fs now cg level) n2 t := by
  rw [HostMetricsConfig.recurse_cgroup]
  simp only [hasSample_append]
  apply or_congr
  · apply or_congr
    · rcases hc : filter_result_sync (cg.load_cpu fs)
          "Failed to load/parse cgroups CPU statistics" with _ | cpu
      · simp [hasSample]
      · show hasSample
            [cfg.counter "cgroup_cpu_usage_seconds_total" now
              (.usecAsSecs cpu.usage_usec) (mkTags cg.name),
             cfg.counter "cgroup_cpu_user_seconds_total" now
              (.usecAsSecs cpu.user_usec) (mkTags cg.name),
             cfg.counter "cgroup_cpu_system_seconds_total" now
              (.usecAsSecs cpu.system_usec) (mkTags cg.name)] n1 t ↔
          hasSample
            [cfg.counter "cgroup_cpu_usage_seconds_total" now
              (.usecAsSecs cpu.usage_usec) (mkTags cg.name),
             cfg.counter "cgroup_cpu_user_seconds_total" now
              (.usecAsSecs cpu.user_usec) (mkTags cg.name),
             cfg.counter "cgroup_cpu_system_seconds_total" now
              (.usecAsSecs cpu.system_usec) (mkTags cg.name)] n2 t
        have key : ∀ nn, isCpuName nn →
            (hasSample
              [cfg.counter "cgroup_cpu_usage_seconds_total" now
                (.usecAsSecs cpu.usage_usec) (mkTags cg.name),
               cfg.counter "cgroup_cpu_user_seconds_total" now
                (.usecAsSecs cpu.user_usec) (mkTags cg.name),
               cfg.counter "cgroup_cpu_system_seconds_total" now
                (.usecAsSecs cpu.system_usec) (mkTags cg.name)] nn t ↔
              t = mkTags cg.name) := by
          intro nn hnn
          constructor
          · rintro ⟨m, hm, _hname, htags⟩
            have h3 : m = cfg.counter "cgroup_cpu_usage_seconds_total" now
                  (.usecAsSecs cpu.usage_usec) (mkTags cg.name) ∨
                m = cfg.counter "cgroup_cpu_user_seconds_total" now
                  (.usecAsSecs cpu.user_usec) (mkTags cg.name) ∨
                m = cfg.counter "cgroup_cpu_system_seconds_total" now
                  (.usecAsSecs cpu.system_usec) (mkTags cg.name) := by
              simpa using hm
            rcases h3 with rfl | rfl | rfl <;> exact htags.symm
          · intro ht
            subst ht
            rcases hnn with rfl | rfl | rfl
            · exact ⟨cfg.counter "cgroup_cpu_usage_seconds_total" now
                (.usecAsSecs cpu.usage_usec) (mkTags cg.name), by simp, rfl, rfl⟩
            · exact ⟨cfg.counter "cgroup_cpu_user_seconds_total" now
                (.usecAsSecs cpu.user_usec) (mkTags cg.name), by simp, rfl, rfl⟩
            · exact ⟨cfg.counter "cgroup_cpu_system_seconds_total" now
                (.usecAsSecs cpu.system_usec) (mkTags cg.name), by simp, rfl, rfl⟩
        rw [key n1 h1, key n2 h2]
    · constructor <;> rintro ⟨m, hm, hname, _htags⟩ <;> exfalso <;>
        · have hcn : isCpuName m.name := by
            rw [hname]
            first
            | exact h1
            | exact h2
          by_cases hroot : cg.is_root = true
          · rw [if_pos hroot] at hm
            cases hm
          · rw [if_neg hroot] at hm
            rcases List.mem_append.mp hm with hm1 | hm2
            · rcases hc : filter_result_sync (cg.load_memory_current fs)
                  "Failed to load/parse cgroups current memory" with _ | v
              · rw [hc] at hm1
                simp at hm1
              · rw [hc] at hm1
                have hmv : m = cfg.gauge "cgroup_memory_current_bytes" now (.bytes v)
                    (mkTags cg.name) := by simpa using hm1
                subst hmv
                rcases hcn with hh | hh | hh <;> simp [HostMetricsConfig.gauge] at hh
            · rcases hc : filter_result_sync (cg.load_memory_stat fs)
                  "Failed to load/parse cgroups memory statistics" with _ | st
              · rw [hc] at hm2
                simp at hm2
              · rw [hc] at hm2
                have hmv : m = cfg.gauge "cgroup_memory_anon_bytes" now (.bytes st.anon)
                      (mkTags cg.name) ∨
                    m = cfg.gauge "cgroup_memory_file_bytes" now (.bytes st.file)
                      (mkTags cg.name) := by simpa using hm2
                rcases hmv with rfl | rfl <;> rcases hcn with hh | hh | hh <;>
                  simp [HostMetricsConfig.gauge] at hh
  · by_cases h : level < cfg.cgroups.levels
    · rw [dif_pos h]
      rcases hcs : filter_result_sync (cg.children fs) "Failed to load cgroups children"
        with _ | cs
      · simp [hasSample]
      · rw [hasSample_flatMap, hasSample_flatMap]
        apply exists_congr
        intro c
        apply and_congr_right
        intro _hc
        by_cases hacc : cfg.cgroups.groups.contains_path c.name = true
        · rw [if_pos hacc]
          exact cpu_triple_all_or_nothing cfg fs now (level + 1) c t n1 n2 h1 h2
        · rw [if_neg hacc]
          simp [hasSample]
    · rw [dif_neg h]
      simp [hasSample]
termination_by cfg.cgroups.levels - level
decreasing_by simp_wf; omega

/-- The independence reading of C8: some environment in which one of the
three CPU counter samples is produced for a tag set while another of the
three is not. -/
def cpuIndependenceObservable : Prop :=
  ∃ (cfg : HostMetricsConfig) (fs : FS) (now level : Nat) (cg : CGroup)
    (t : List (String × String)) (n1 n2 : String),
    isCpuName n1 ∧ isCpuName n2 ∧
    hasSample (cfg.recurse_cgroup fs now cg level) n1 t ∧
    ¬ hasSample (cfg.recurse_cgroup fs now cg level) n2 t

/-- C8 as stated is false on the code: the three CPU counter samples are
not independently fallible.  All three are appended under the single
success branch of one `load_cpu` call, so in no environment can one of
them be present for a tag set while another is absent; this proves the
negation of the claim's independence assertion. -/
theorem C8_counterexample : ¬ cpuIndependenceObservable := by
  rintro ⟨cfg, fs, now, level, cg, t, n1, n2, h1, h2, hyes, hno⟩
  exact hno ((cpu_triple_all_or_nothing cfg fs now level cg t n1 n2 h1 h2).mp hyes)

/-- C8, amended.  For every visited node the three CPU counter samples are
produced atomically from the single `cpu.stat` read: for any tag set, a
sample named one of the three is present exactly when a sample named any
other of the three with the same tag set is (they succeed and fail
together, sharing one tag set); and every sample of a collection pass
carries the single capture instant taken at the start of the pass. -/
theorem C8_cpu_triple_atomic (cfg : HostMetricsConfig) (fs : FS) (now : Nat)
    (level : Nat) (cg : CGroup) (t : List (String × String)) (n1 n2 : String)
    (h1 : isCpuName n1) (h2 : isCpuName n2) :
    (hasSample (cfg.recurse_cgroup fs now cg level) n1 t ↔
      hasSample (cfg.recurse_cgroup fs now cg level) n2 t) ∧
    (∀ m ∈ cfg.recurse_cgroup fs now cg level, m.timestamp = now) :=
  ⟨cpu_triple_all_or_nothing cfg fs now level cg t n1 n2 h1 h2,
   fun m hm => (mem_recurse_shape cfg fs now level cg m hm).1⟩

/-- Witness for the amended C8 at a concrete node: usage and user presence
coincide, and the capture instant is shared. -/
theorem C8_cpu_triple_atomic_witness :
    (hasSample
        (HostMetricsConfig.recurse_cgroup ⟨⟨3, none, fun _ => true⟩⟩
          { sysfs_root := "/sys", dir_paths := [], file_paths := [],
            file_contents := [("/cg/cpu.stat", "usage_usec 9")],
            dir_listings := [] } 11 ⟨"/cg", "/"⟩ 1)
        "cgroup_cpu_usage_seconds_total" (mkTags "/") ↔
      hasSample
        (HostMetricsConfig.recurse_cgroup ⟨⟨3, none, fun _ => true⟩⟩
          { sysfs_root := "/sys", dir_paths := [], file_paths := [],
            file_contents := [("/cg/cpu.stat", "usage_usec 9")],
            dir_listings := [] } 11 ⟨"/cg", "/"⟩ 1)
        "cgroup_cpu_user_seconds_total" (mkTags "/")) ∧
    (HostMetricsConfig.counter ⟨⟨3, none, fun _ => true⟩⟩
      "cgroup_cpu_usage_seconds_total" 11 (MetricValue.usecAsSecs 9)
      (mkTags "/")).timestamp = 11 := by
  constructor
  · exact (C8_cpu_triple_atomic ⟨⟨3, none, fun _ => true⟩⟩
      { sysfs_root := "/sys", dir_paths := [], file_paths := [],
        file_contents := [("/cg/cpu.stat", "usage_usec 9")],
        dir_listings := [] } 11 1 ⟨"/cg", "/"⟩ (mkTags "/")
      "cgroup_cpu_usage_seconds_total" "cgroup_cpu_user_seconds_total"
      (Or.inl rfl) (Or.inr (Or.inl rfl))).1
  · exact (C8_cpu_triple_atomic ⟨⟨3, none, fun _ => true⟩⟩
      { sysfs_root := "/sys", dir_paths := [], file_paths := [],
        file_contents := [("/cg/cpu.stat", "usage_usec 9")],
        dir_listings := [] } 11 1 ⟨"/cg", "/"⟩ (mkTags "/")
      "cgroup_cpu_usage_seconds_total" "cgroup_cpu_user_seconds_total"
      (Or.inl rfl) (Or.inr (Or.inl rfl))).2 _
      (cpu_samples_mem ⟨⟨3, none, fun _ => true⟩⟩
        { sysfs_root := "/sys", dir_paths := [], file_paths := [],
          file_contents := [("/cg/cpu.stat", "usage_usec 9")],
          dir_listings := [] } 11 1 ⟨"/cg", "/"⟩ ⟨9, 0, 0⟩ rfl).1
